import Mathlib

/-!
# cert-manager-webhook-softlayer: the DNS01 solver over the IBM CIS API

A shallow embedding of `main.go`: `loadConfig`, `validate`, `Present` and `CleanUp`.

* Go strings are byte sequences (`GoString`); `strings.HasSuffix` and `strings.Split`
  work on bytes.
* A Go `error` is `Option GoError`, `none` being `nil`.
* The vendor DNS client (`cis.CisServiceAPI`) is a parameter: four operations over an
  arbitrary state type, so that every deterministic behaviour of the service is covered.
* A run of `Present` or `CleanUp` yields its outcome, the calls it made to the service
  (with what the service answered) and the state the service is left in.
* The solver is taken after `Initialize`, with its `ibmCisAPI` in place.
* The `log` package is logrus: `Debugf`, `Infof`, `Error` and `Errorf` only write a line
  and are left out; `log.Fatal` writes the line and then exits the process, which is
  the outcome `Outcome.aborted`.
-/

namespace Softlayer

/-! ## Strings and errors -/

/-- A Go string: an immutable sequence of bytes. -/
abbrev GoString := List UInt8

/-- A Go string literal, as its UTF-8 bytes. -/
def lit (s : String) : GoString := s.toUTF8.data.toList

/-- The message of a non-nil Go error. -/
abbrev GoError := String

deriving instance DecidableEq for Except

/-- Go `strings.HasSuffix`:
`len(s) >= len(suffix) && s[len(s)-len(suffix):] == suffix`. -/
def HasSuffix (s suffix : GoString) : Bool :=
  decide (s.length ≥ suffix.length) && (s.drop (s.length - suffix.length) == suffix)

/-- Go `strings.Split(s, sep)` for a separator of one byte (the program only splits
on the comma): the pieces of `s` between the separators, in order. There is always at
least one piece; `Split "" ","` is the single empty piece. -/
def Split : GoString → UInt8 → List GoString
  | [], _ => [[]]
  | c :: cs, sep =>
    if c = sep then [] :: Split cs sep
    else
      match Split cs sep with
      | [] => [[c]]
      | piece :: pieces => (c :: piece) :: pieces

/-- Go `strings.TrimSuffix`: `s` without the trailing `suffix` when it has one. -/
def TrimSuffix (s suffix : GoString) : GoString :=
  if HasSuffix s suffix then s.take (s.length - suffix.length) else s

/-- The byte of the string `","`. -/
def comma : UInt8 := 44

/-- The string `"."`. -/
def dot : GoString := lit "."

/-- The string `"TXT"`. -/
def TXT : GoString := lit "TXT"

/-! ## Data model -/

/-- Part of `cmmeta.LocalObjectReference`. -/
structure LocalObjectReference where
  Name : GoString
  deriving DecidableEq, Repr

/-- Part of `cmmeta.SecretKeySelector`: the embedded reference and the key. -/
structure SecretKeySelector where
  LocalObjectReference : LocalObjectReference
  Key : GoString
  deriving DecidableEq, Repr

/-- The solver configuration decoded from the issuer (`main.go`, lines 77-85). -/
structure softlayerDNSProviderConfig where
  CisCRN : GoString
  APIKeySecretRef : SecretKeySelector
  deriving DecidableEq, Repr

/-- The Go zero value `softlayerDNSProviderConfig{}`. -/
def zeroConfig : softlayerDNSProviderConfig :=
  { CisCRN := [], APIKeySecretRef := { LocalObjectReference := { Name := [] }, Key := [] } }

/-- Type `extapi.JSON`: the raw bytes of a JSON document. A nil `Raw` and a `Raw` of
length zero are both the empty list (Go's decoder only reads `len` and the bytes). -/
structure JSON where
  Raw : GoString
  deriving DecidableEq, Repr

/-- The fields of `v1alpha1.ChallengeRequest` that the solver reads. `Config` is a
pointer: `none` is nil. -/
structure ChallengeRequest where
  ResolvedFQDN : GoString
  ResolvedZone : GoString
  Key : GoString
  ResourceNamespace : GoString
  Config : Option JSON
  deriving DecidableEq, Repr

/-- The fields of `cis.Zone` that the solver reads. -/
structure Zone where
  Id : GoString
  Name : GoString
  deriving DecidableEq, Repr

/-- The fields of `cis.DnsRecord` that the solver reads. -/
structure DnsRecord where
  Id : GoString
  Name : GoString
  DnsType : GoString
  Content : GoString
  deriving DecidableEq, Repr

/-- The fields of `cis.DnsBody` that the solver sets. -/
structure DnsBody where
  Name : GoString
  DnsType : GoString
  Content : GoString
  deriving DecidableEq, Repr

/-! ## Configuration -/

/-- What `json.Unmarshal(data, &cfg)` leaves behind: the config as the decoder left it
and the error it returned. -/
abbrev Decoder := GoString → softlayerDNSProviderConfig → softlayerDNSProviderConfig × Option GoError

/-- The white space of the JSON scanner: space, tab, carriage return, line feed. -/
def isSpace (c : UInt8) : Bool := c == 32 || c == 9 || c == 13 || c == 10

/-- Go `json.Unmarshal(data, &cfg)`, as far as the program depends on it. Unmarshal
first scans the whole input (`checkValid`); an input that ends before any value has
begun, so an empty or all-blank one, is the syntax error "unexpected end of JSON
input" and leaves `cfg` untouched. What the decoder does with any other input is the
parameter `decodeValue`. -/
def jsonUnmarshal (decodeValue : Decoder) : Decoder := fun data cfg =>
  if data.all isSpace then (cfg, some "unexpected end of JSON input")
  else decodeValue data cfg

/-- Function `loadConfig` (`main.go`, lines 310-325). -/
def loadConfig (decodeValue : Decoder) (cfgJSON : Option JSON) :
    softlayerDNSProviderConfig × Option GoError :=
  let cfg := zeroConfig
  -- handle the 'base case' where no configuration has been provided
  match cfgJSON with
  | none => (cfg, none)
  | some j =>
    match jsonUnmarshal decodeValue j.Raw cfg with
    | (cfg, some err) => (cfg, some ("error decoding solver config: " ++ err))
    | (cfg, none) => (cfg, none)

/-- Method `validate` (`main.go`, lines 98-116). -/
def validate (cfg : softlayerDNSProviderConfig) : Option GoError :=
  if cfg.CisCRN = [] then
    some "No IBM Cloud Internet Service CRN provided"
  else if cfg.APIKeySecretRef.LocalObjectReference.Name = [] then
    some "No API key to access IBM Cloud Internet Service provided"
  else if cfg.APIKeySecretRef.Key = [] then
    some "No API key to access IBM Cloud Internet Service provided"
  else none

/-! ## The DNS service and the runs of the solver -/

/-- The four operations of `cis.CisServiceAPI` that the solver calls (through `Zones()`
and `Dns()`), over a service state `σ`: each takes the state and the arguments and
gives the answer and the next state. -/
structure CisServiceAPI (σ : Type) where
  ListZones : σ → GoString → Except GoError (List Zone) × σ
  CreateDns : σ → GoString → GoString → DnsBody → Except GoError DnsRecord × σ
  ListDns : σ → GoString → GoString → Except GoError (List DnsRecord) × σ
  DeleteDns : σ → GoString → GoString → GoString → Option GoError × σ

/-- One call to the service, with its arguments and the answer it got. -/
inductive Event where
  | ListZones (crn : GoString) (res : Except GoError (List Zone))
  | CreateDns (crn zoneId : GoString) (body : DnsBody) (res : Except GoError DnsRecord)
  | ListDns (crn zoneId : GoString) (res : Except GoError (List DnsRecord))
  | DeleteDns (crn zoneId dnsId : GoString) (err : Option GoError)
  deriving DecidableEq

/-- How a call of `Present` or `CleanUp` ends: it returns its `error` to the caller, or
`log.Fatal` ends the process. -/
inductive Outcome where
  | returned (err : Option GoError)
  | aborted
  deriving DecidableEq, Repr

/-- A run of a loop: whether `log.Fatal` ended the process inside it, the calls made,
and the state of the service afterwards. -/
structure Loop (σ : Type) where
  fatal : Bool
  trace : List Event
  state : σ

/-- A run of `Present` or `CleanUp`. -/
structure Run (σ : Type) where
  outcome : Outcome
  trace : List Event
  state : σ

/-- The run of a whole call whose loops ran as `l`: `return nil` after the loops, unless
`log.Fatal` ended the process. -/
def Loop.toRun {σ : Type} (l : Loop σ) : Run σ :=
  { outcome := if l.fatal then Outcome.aborted else Outcome.returned none
    trace := l.trace
    state := l.state }

/-! ## Present -/

/-- The loop `for _, zoneid := range myZones` of `Present` (`main.go`, lines 172-198).
A failed `CreateDns` is only logged with `log.Error`. -/
def Present.rangeZones {σ : Type} (api : CisServiceAPI σ) (ch : ChallengeRequest)
    (crn : GoString) : List Zone → σ → List Event × σ
  | [], s => ([], s)
  | zoneid :: zones, s =>
    if HasSuffix ch.ResolvedFQDN (zoneid.Name ++ dot) then
      let body : DnsBody := { Name := ch.ResolvedFQDN, DnsType := TXT, Content := ch.Key }
      let created := api.CreateDns s crn zoneid.Id body
      let rest := Present.rangeZones api ch crn zones created.2
      (Event.CreateDns crn zoneid.Id body created.1 :: rest.1, rest.2)
    else Present.rangeZones api ch crn zones s

/-- The loop `for i, crn := range strings.Split(cfg.CisCRN, ",")` of `Present`
(`main.go`, lines 163-199). A failed `ListZones` goes to `log.Fatal`. -/
def Present.rangeCRN {σ : Type} (api : CisServiceAPI σ) (ch : ChallengeRequest) :
    List GoString → σ → Loop σ
  | [], s => { fatal := false, trace := [], state := s }
  | crn :: crns, s =>
    match api.ListZones s crn with
    | (Except.error ibmErr, s1) =>
      { fatal := true, trace := [Event.ListZones crn (Except.error ibmErr)], state := s1 }
    | (Except.ok myZones, s1) =>
      let inner := Present.rangeZones api ch crn myZones s1
      let rest := Present.rangeCRN api ch crns inner.2
      { fatal := rest.fatal
        trace := Event.ListZones crn (Except.ok myZones) :: (inner.1 ++ rest.trace)
        state := rest.state }

/-- Method `Present` (`main.go`, lines 145-202). -/
def Present {σ : Type} (decodeValue : Decoder) (api : CisServiceAPI σ)
    (ch : ChallengeRequest) (s : σ) : Run σ :=
  match loadConfig decodeValue ch.Config with
  | (_, some err) =>
    { outcome := Outcome.returned (some ("unable to load config: " ++ err))
      trace := [], state := s }
  | (cfg, none) => (Present.rangeCRN api ch (Split cfg.CisCRN comma) s).toRun

/-! ## CleanUp -/

/-- The loop `for _, myDnsrec := range myDnsrecs` of `CleanUp` (`main.go`, lines
249-264). The result of `DeleteDns` is dropped. -/
def CleanUp.rangeRecs {σ : Type} (api : CisServiceAPI σ) (ch : ChallengeRequest)
    (crn zoneId : GoString) : List DnsRecord → σ → List Event × σ
  | [], s => ([], s)
  | myDnsrec :: recs, s =>
    if myDnsrec.DnsType ≠ TXT then CleanUp.rangeRecs api ch crn zoneId recs s
    else if myDnsrec.Name ++ dot ≠ ch.ResolvedFQDN then
      CleanUp.rangeRecs api ch crn zoneId recs s
    else if myDnsrec.Content ≠ ch.Key then CleanUp.rangeRecs api ch crn zoneId recs s
    else
      let deleted := api.DeleteDns s crn zoneId myDnsrec.Id
      let rest := CleanUp.rangeRecs api ch crn zoneId recs deleted.2
      (Event.DeleteDns crn zoneId myDnsrec.Id deleted.1 :: rest.1, rest.2)

/-- The loop `for _, zoneid := range myZones` of `CleanUp` (`main.go`, lines 232-266).
A failed `ListDns` goes to `log.Fatal`. -/
def CleanUp.rangeZones {σ : Type} (api : CisServiceAPI σ) (ch : ChallengeRequest)
    (crn : GoString) : List Zone → σ → Loop σ
  | [], s => { fatal := false, trace := [], state := s }
  | zoneid :: zones, s =>
    if HasSuffix ch.ResolvedFQDN (zoneid.Name ++ dot) then
      match api.ListDns s crn zoneid.Id with
      | (Except.error ibmErr, s1) =>
        { fatal := true
          trace := [Event.ListDns crn zoneid.Id (Except.error ibmErr)], state := s1 }
      | (Except.ok myDnsrecs, s1) =>
        let inner := CleanUp.rangeRecs api ch crn zoneid.Id myDnsrecs s1
        let rest := CleanUp.rangeZones api ch crn zones inner.2
        { fatal := rest.fatal
          trace := Event.ListDns crn zoneid.Id (Except.ok myDnsrecs) :: (inner.1 ++ rest.trace)
          state := rest.state }
    else CleanUp.rangeZones api ch crn zones s

/-- The loop `for i, crn := range strings.Split(cfg.CisCRN, ",")` of `CleanUp`
(`main.go`, lines 223-267). A failed `ListZones` goes to `log.Fatal`. -/
def CleanUp.rangeCRN {σ : Type} (api : CisServiceAPI σ) (ch : ChallengeRequest) :
    List GoString → σ → Loop σ
  | [], s => { fatal := false, trace := [], state := s }
  | crn :: crns, s =>
    match api.ListZones s crn with
    | (Except.error ibmErr, s1) =>
      { fatal := true, trace := [Event.ListZones crn (Except.error ibmErr)], state := s1 }
    | (Except.ok myZones, s1) =>
      let inner := CleanUp.rangeZones api ch crn myZones s1
      if inner.fatal then
        { fatal := true
          trace := Event.ListZones crn (Except.ok myZones) :: inner.trace
          state := inner.state }
      else
        let rest := CleanUp.rangeCRN api ch crns inner.state
        { fatal := rest.fatal
          trace := Event.ListZones crn (Except.ok myZones) :: (inner.trace ++ rest.trace)
          state := rest.state }

/-- Method `CleanUp` (`main.go`, lines 210-270). -/
def CleanUp {σ : Type} (decodeValue : Decoder) (api : CisServiceAPI σ)
    (ch : ChallengeRequest) (s : σ) : Run σ :=
  match loadConfig decodeValue ch.Config with
  | (_, some err) => { outcome := Outcome.returned (some err), trace := [], state := s }
  | (cfg, none) => (CleanUp.rangeCRN api ch (Split cfg.CisCRN comma) s).toRun

/-! ## The calls of a run -/

/-- A `CreateDns` call: account, zone id and body. -/
abbrev CreateCall := GoString × GoString × DnsBody

/-- A `DeleteDns` call: account, zone id and record id. -/
abbrev DeleteCall := GoString × GoString × GoString

/-- The `CreateDns` calls of a trace, in order. -/
def createCalls : List Event → List CreateCall
  | [] => []
  | Event.CreateDns crn zoneId body _ :: t => (crn, zoneId, body) :: createCalls t
  | _ :: t => createCalls t

/-- The `DeleteDns` calls of a trace, in order. -/
def deleteCalls : List Event → List DeleteCall
  | [] => []
  | Event.DeleteDns crn zoneId dnsId _ :: t => (crn, zoneId, dnsId) :: deleteCalls t
  | _ :: t => deleteCalls t

/-- Whether the event is a call that lists (zones or records). -/
def Event.isList : Event → Bool
  | Event.ListZones _ _ => true
  | Event.ListDns _ _ _ => true
  | _ => false

/-- The list calls of a trace with their answers, in order. -/
def listAnswers (t : List Event) : List Event := t.filter Event.isList

/-- Whether the event is a `ListZones` or `ListDns` call that the service answered
with an error. -/
def Event.isFailedList : Event → Bool
  | Event.ListZones _ (Except.error _) => true
  | Event.ListDns _ _ (Except.error _) => true
  | _ => false

/-- Every `ListZones` call succeeds, in every state. -/
def ListZonesSucceeds {σ : Type} (api : CisServiceAPI σ) : Prop :=
  ∀ s crn, ∃ zones, (api.ListZones s crn).1 = Except.ok zones

/-- Every `ListDns` call succeeds, in every state. -/
def ListDnsSucceeds {σ : Type} (api : CisServiceAPI σ) : Prop :=
  ∀ s crn zoneId, ∃ recs, (api.ListDns s crn zoneId).1 = Except.ok recs

/-! ## What the specification says the calls are -/

/-- The items of a successful listing. -/
def listed {α : Type} : Except GoError (List α) → List α
  | Except.ok l => l
  | Except.error _ => []

/-- For each element in order, do `f` on the state reached so far; the outputs are
concatenated. -/
def forEach {α β σ : Type} (f : α → σ → List β × σ) : List α → σ → List β × σ
  | [], s => ([], s)
  | a :: l, s => ((f a s).1 ++ (forEach f l (f a s).2).1, (forEach f l (f a s).2).2)

/-- The zone rule of the specification: `Name + "."` is a suffix of `ResolvedFQDN`. -/
def zoneOwns (ch : ChallengeRequest) (z : Zone) : Bool :=
  decide (z.Name ++ dot <:+ ch.ResolvedFQDN)

/-- The challenge record of the specification: type TXT, name with a dot appended equal
to `ResolvedFQDN`, content equal to `Key`. -/
def isChallengeRecord (ch : ChallengeRequest) (r : DnsRecord) : Bool :=
  decide (r.DnsType = TXT ∧ r.Name ++ dot = ch.ResolvedFQDN ∧ r.Content = ch.Key)

/-- The service after the given `DeleteDns` calls. -/
def afterDeletes {σ : Type} (api : CisServiceAPI σ) (calls : List DeleteCall) (s : σ) : σ :=
  calls.foldl (fun s c => (api.DeleteDns s c.1 c.2.1 c.2.2).2) s

/-- The deletions the specification asks for in one zone: one per listed challenge
record, in order. -/
def CleanUp.expectedInZone {σ : Type} (api : CisServiceAPI σ) (ch : ChallengeRequest)
    (crn : GoString) (z : Zone) (s : σ) : List DeleteCall × σ :=
  let calls : List DeleteCall :=
    ((listed (api.ListDns s crn z.Id).1).filter (isChallengeRecord ch)).map
      (fun r => (crn, z.Id, r.Id))
  (calls, afterDeletes api calls (api.ListDns s crn z.Id).2)

/-- The deletions the specification asks for in one account: those of each listed zone
that owns the name, in order. -/
def CleanUp.expectedInAccount {σ : Type} (api : CisServiceAPI σ) (ch : ChallengeRequest)
    (crn : GoString) (s : σ) : List DeleteCall × σ :=
  forEach (CleanUp.expectedInZone api ch crn)
    ((listed (api.ListZones s crn).1).filter (zoneOwns ch)) (api.ListZones s crn).2

/-- The deletions the specification asks for: those of each account of the list, in
order. -/
def CleanUp.expected {σ : Type} (api : CisServiceAPI σ) (ch : ChallengeRequest)
    (crns : List GoString) (s : σ) : List DeleteCall × σ :=
  forEach (CleanUp.expectedInAccount api ch) crns s

/-- The deletions that the list answers of a trace call for: after each answered
`ListDns`, one per listed challenge record, in order. -/
def deletesAfterLists (ch : ChallengeRequest) : List Event → List DeleteCall
  | [] => []
  | Event.ListDns crn zoneId (Except.ok recs) :: t =>
    (recs.filter (isChallengeRecord ch)).map (fun r => (crn, zoneId, r.Id)) ++
      deletesAfterLists ch t
  | _ :: t => deletesAfterLists ch t

/-- The record body the specification asks `Present` to create. -/
def challengeBody (ch : ChallengeRequest) : DnsBody :=
  { Name := ch.ResolvedFQDN, DnsType := TXT, Content := ch.Key }

/-- The creations the specification asks for in one account: one per listed zone that
owns the name, in order. -/
def Present.expectedInAccount {σ : Type} (api : CisServiceAPI σ) (ch : ChallengeRequest)
    (crn : GoString) (s : σ) : List CreateCall × σ :=
  forEach
    (fun z s => ([(crn, z.Id, challengeBody ch)], (api.CreateDns s crn z.Id (challengeBody ch)).2))
    ((listed (api.ListZones s crn).1).filter (zoneOwns ch)) (api.ListZones s crn).2

/-- The creations the specification asks for: those of each account of the list, in
order. -/
def Present.expected {σ : Type} (api : CisServiceAPI σ) (ch : ChallengeRequest)
    (crns : List GoString) (s : σ) : List CreateCall × σ :=
  forEach (Present.expectedInAccount api ch) crns s

/-! ## Two services that list alike -/

/-- On related states the two services answer every `ListZones` call with the same
zones, and the states stay related. -/
def ZonesAgree {σ τ : Type} (api : CisServiceAPI σ) (api2 : CisServiceAPI τ)
    (R : σ → τ → Prop) : Prop :=
  ∀ s t crn, R s t → ∃ zones, (api.ListZones s crn).1 = Except.ok zones ∧
    (api2.ListZones t crn).1 = Except.ok zones ∧ R (api.ListZones s crn).2 (api2.ListZones t crn).2

/-- Related states stay related after a `CreateDns` call, whatever the two services
answer to it. -/
def CreatesKeep {σ τ : Type} (api : CisServiceAPI σ) (api2 : CisServiceAPI τ)
    (R : σ → τ → Prop) : Prop :=
  ∀ s t crn zoneId body, R s t →
    R (api.CreateDns s crn zoneId body).2 (api2.CreateDns t crn zoneId body).2

/-! ## An in-memory DNS service -/

/-- The state of the in-memory service: the zones of each account and the records of
each zone of each account. -/
structure CisState where
  zones : List (GoString × Zone)
  records : List (GoString × GoString × DnsRecord)
  deriving DecidableEq

/-- The records of one zone of one account. -/
def CisState.recordsOf (s : CisState) (crn zoneId : GoString) : List DnsRecord :=
  (s.records.filter (fun e => decide (e.1 = crn ∧ e.2.1 = zoneId))).map (fun e => e.2.2)

/-- The zones of one account. -/
def CisState.zonesOf (s : CisState) (crn : GoString) : List Zone :=
  (s.zones.filter (fun e => decide (e.1 = crn))).map (fun e => e.2)

/-- An in-memory service in which every call succeeds. `ListZones` and `ListDns` answer
from the state, `CreateDns` appends a record (its name is `storedName` of the name
given, its id is chosen by `newId`, type and content are as given) and `DeleteDns`
removes the record with the given id from the given zone. -/
def memoryAPI (storedName : GoString → GoString) (newId : CisState → GoString) :
    CisServiceAPI CisState where
  ListZones s crn := (Except.ok (s.zonesOf crn), s)
  CreateDns s crn zoneId body :=
    let r : DnsRecord :=
      { Id := newId s, Name := storedName body.Name, DnsType := body.DnsType
        Content := body.Content }
    (Except.ok r, { s with records := s.records ++ [(crn, zoneId, r)] })
  ListDns s crn zoneId := (Except.ok (s.recordsOf crn zoneId), s)
  DeleteDns s crn zoneId dnsId :=
    (none, { s with records :=
      s.records.filter (fun e => !decide (e.1 = crn ∧ e.2.1 = zoneId ∧ e.2.2.Id = dnsId)) })

/-- State `t` has the zones of `s` and no record that `s` does not have. -/
def Shrinks (s t : CisState) : Prop :=
  t.zones = s.zones ∧ ∀ e ∈ t.records, e ∈ s.records

/-- No record of the zone is a challenge record of the request. -/
def Clean (ch : ChallengeRequest) (s : CisState) (crn zoneId : GoString) : Prop :=
  ∀ r ∈ s.recordsOf crn zoneId, isChallengeRecord ch r = false

/-- A service that stores a record under exactly the name it was given. -/
def exactAPI (newId : CisState → GoString) : CisServiceAPI CisState := memoryAPI id newId

/-- A service that stores a record under the name without its final dot, the form in
which `CleanUp` expects `ListDns` to report names. -/
def trimmingAPI (newId : CisState → GoString) : CisServiceAPI CisState :=
  memoryAPI (fun name => TrimSuffix name dot) newId

/-- Record ids for the examples: as many `#` as there are records, plus one. -/
def countId (s : CisState) : GoString := List.replicate (s.records.length + 1) 35

/-! ## Examples -/

/-- The config document of the examples, with two accounts:
`cisCRN` is `crn:1,crn:2` and `apiKeySecretRef` is the key `k` of the secret `s`. -/
def exampleJSON : GoString :=
  lit "\x7b\"cisCRN\":\"crn:1,crn:2\",\"apiKeySecretRef\":\x7b\"name\":\"s\",\"key\":\"k\"\x7d\x7d"

/-- The config that `exampleJSON` decodes to. -/
def exampleConfig : softlayerDNSProviderConfig :=
  { CisCRN := lit "crn:1,crn:2"
    APIKeySecretRef := { LocalObjectReference := { Name := lit "s" }, Key := lit "k" } }

/-- A decoder for the examples: it decodes `exampleJSON` and rejects every other value. -/
def exampleDecoder : Decoder := fun data cfg =>
  if data = exampleJSON then (exampleConfig, none) else (cfg, some "invalid character")

/-- A challenge request for the given FQDN with the key `token` and the config
`exampleJSON`. -/
def exampleRequest (fqdn : String) : ChallengeRequest :=
  { ResolvedFQDN := lit fqdn, ResolvedZone := lit "example.com.", Key := lit "token"
    ResourceNamespace := lit "default", Config := some { Raw := exampleJSON } }

/-- The same request with a config that is not nil and has an empty `Raw`. -/
def emptyRawRequest : ChallengeRequest :=
  { exampleRequest "_acme-challenge.example.com." with Config := some { Raw := [] } }

/-- The same request with no config at all (a nil `Config`). -/
def noConfigRequest : ChallengeRequest :=
  { exampleRequest "_acme-challenge.example.com." with Config := none }

/-- A service state without zones or records. -/
def emptyState : CisState := { zones := [], records := [] }

/-- One zone `example.com` in account `crn:1`, no records. -/
def oneZoneState : CisState :=
  { zones := [(lit "crn:1", { Id := lit "z1", Name := lit "example.com" })], records := [] }

/-- Zones `example.com` and `foo.example.com` in account `crn:1` and `example.org` in
account `crn:2`, no records. -/
def nestedZonesState : CisState :=
  { zones :=
      [(lit "crn:1", { Id := lit "z1", Name := lit "example.com" }),
       (lit "crn:1", { Id := lit "z2", Name := lit "foo.example.com" }),
       (lit "crn:2", { Id := lit "z3", Name := lit "example.org" })]
    records := [] }

/-- The challenge record of `exampleRequest "_acme-challenge.example.com."` with the
given id. -/
def challengeRecord (id : String) : DnsRecord :=
  { Id := lit id, Name := lit "_acme-challenge.example.com", DnsType := TXT
    Content := lit "token" }

/-- Zone `example.com` in both accounts. In `crn:1` it holds the challenge record `a`
and three records that each miss one condition: `b` has another content, `c` is not TXT,
`d` has another name. In `crn:2` it holds the challenge record `e`. -/
def recordsState : CisState :=
  { zones :=
      [(lit "crn:1", { Id := lit "z1", Name := lit "example.com" }),
       (lit "crn:2", { Id := lit "z4", Name := lit "example.com" })]
    records :=
      [(lit "crn:1", lit "z1", challengeRecord "a"),
       (lit "crn:1", lit "z1", { challengeRecord "b" with Content := lit "other" }),
       (lit "crn:1", lit "z1", { challengeRecord "c" with DnsType := lit "CNAME" }),
       (lit "crn:1", lit "z1", { challengeRecord "d" with Name := lit "www.example.com" }),
       (lit "crn:2", lit "z4", challengeRecord "e")] }

/-- A service on which every call fails and nothing changes. -/
def failingAPI : CisServiceAPI Unit where
  ListZones _ _ := (Except.error "list zones failed", ())
  CreateDns _ _ _ _ := (Except.error "create failed", ())
  ListDns _ _ _ := (Except.error "list records failed", ())
  DeleteDns _ _ _ _ := (some "delete failed", ())

/-- An in-memory service whose record calls fail and change nothing: `CreateDns` stores
no record and `DeleteDns` leaves the record in place. -/
def flakyAPI : CisServiceAPI CisState where
  ListZones s crn := (Except.ok (s.zonesOf crn), s)
  CreateDns s _ _ _ := (Except.error "create failed", s)
  ListDns s crn zoneId := (Except.ok (s.recordsOf crn zoneId), s)
  DeleteDns s _ _ _ := (some "delete failed", s)

/-- A config document that names the account `crn:1` twice. -/
def repeatedJSON : GoString :=
  lit "\x7b\"cisCRN\":\"crn:1,crn:1\",\"apiKeySecretRef\":\x7b\"name\":\"s\",\"key\":\"k\"\x7d\x7d"

/-- The config that `repeatedJSON` decodes to. -/
def repeatedConfig : softlayerDNSProviderConfig :=
  { CisCRN := lit "crn:1,crn:1"
    APIKeySecretRef := { LocalObjectReference := { Name := lit "s" }, Key := lit "k" } }

/-- A decoder that decodes `repeatedJSON` and rejects every other value. -/
def repeatedDecoder : Decoder := fun data cfg =>
  if data = repeatedJSON then (repeatedConfig, none) else (cfg, some "invalid character")

/-- The request for `_acme-challenge.example.com.` with the config `repeatedJSON`. -/
def repeatedRequest : ChallengeRequest :=
  { exampleRequest "_acme-challenge.example.com." with Config := some { Raw := repeatedJSON } }

/-! ## Theorems -/

/-! ### Strings and traces -/

theorem HasSuffix_iff (s t : GoString) : HasSuffix s t = true ↔ t <:+ s := by
  unfold HasSuffix
  rw [List.suffix_iff_eq_drop]
  simp only [Bool.and_eq_true, decide_eq_true_eq, beq_iff_eq, ge_iff_le]
  constructor
  · rintro ⟨_, h⟩
    exact h.symm
  · intro h
    refine ⟨?_, h.symm⟩
    have := congrArg List.length h
    simp only [List.length_drop] at this
    omega

theorem zoneOwns_eq (ch : ChallengeRequest) (z : Zone) :
    zoneOwns ch z = HasSuffix ch.ResolvedFQDN (z.Name ++ dot) := by
  unfold zoneOwns
  rw [Bool.eq_iff_iff, HasSuffix_iff]
  simp

theorem Split_ne_nil (s : GoString) (sep : UInt8) : Split s sep ≠ [] := by
  induction s with
  | nil => simp [Split]
  | cons c cs ih =>
    unfold Split
    split
    · simp
    · split <;> simp

theorem deleteCalls_append (a b : List Event) :
    deleteCalls (a ++ b) = deleteCalls a ++ deleteCalls b := by
  induction a with
  | nil => rfl
  | cons e t ih => cases e <;> simp [deleteCalls, ih]

theorem createCalls_append (a b : List Event) :
    createCalls (a ++ b) = createCalls a ++ createCalls b := by
  induction a with
  | nil => rfl
  | cons e t ih => cases e <;> simp [createCalls, ih]

theorem isChallengeRecord_eq_false (ch : ChallengeRequest) (r : DnsRecord)
    (h : r.DnsType ≠ TXT ∨ r.Name ++ dot ≠ ch.ResolvedFQDN ∨ r.Content ≠ ch.Key) :
    isChallengeRecord ch r = false := by
  unfold isChallengeRecord
  rw [decide_eq_false_iff_not]
  tauto

theorem isChallengeRecord_eq_true (ch : ChallengeRequest) (r : DnsRecord)
    (h1 : r.DnsType = TXT) (h2 : r.Name ++ dot = ch.ResolvedFQDN) (h3 : r.Content = ch.Key) :
    isChallengeRecord ch r = true := by
  unfold isChallengeRecord
  rw [decide_eq_true_iff]
  exact ⟨h1, h2, h3⟩

/-! ### The deletions of CleanUp -/

theorem rangeRecs_deletes {σ : Type} (api : CisServiceAPI σ) (ch : ChallengeRequest)
    (crn zoneId : GoString) (recs : List DnsRecord) (s : σ) :
    deleteCalls (CleanUp.rangeRecs api ch crn zoneId recs s).1 =
        (recs.filter (isChallengeRecord ch)).map (fun r => (crn, zoneId, r.Id)) ∧
      (CleanUp.rangeRecs api ch crn zoneId recs s).2 =
        afterDeletes api
          ((recs.filter (isChallengeRecord ch)).map (fun r => (crn, zoneId, r.Id))) s := by
  induction recs generalizing s with
  | nil => exact ⟨rfl, rfl⟩
  | cons r recs ih =>
    unfold CleanUp.rangeRecs
    by_cases h1 : r.DnsType = TXT
    · by_cases h2 : r.Name ++ dot = ch.ResolvedFQDN
      · by_cases h3 : r.Content = ch.Key
        · have hc := isChallengeRecord_eq_true ch r h1 h2 h3
          simp only [h1, h2, h3, ne_eq, not_true_eq_false, if_false, List.filter_cons, hc,
            if_true, List.map_cons, deleteCalls, afterDeletes, List.foldl_cons]
          have := ih (api.DeleteDns s crn zoneId r.Id).2
          exact ⟨by rw [this.1], by rw [this.2]; rfl⟩
        · have hc := isChallengeRecord_eq_false ch r (Or.inr (Or.inr h3))
          simp only [h1, h2, h3, ne_eq, not_true_eq_false, not_false_eq_true, if_false, if_true,
            List.filter_cons, hc]
          exact ih s
      · have hc := isChallengeRecord_eq_false ch r (Or.inr (Or.inl h2))
        simp only [h1, h2, ne_eq, not_true_eq_false, not_false_eq_true, if_false, if_true,
          List.filter_cons, hc]
        exact ih s
    · have hc := isChallengeRecord_eq_false ch r (Or.inl h1)
      simp only [h1, ne_eq, not_false_eq_true, if_true, List.filter_cons, hc]
      exact ih s

theorem CleanUp_rangeZones_deletes {σ : Type} (api : CisServiceAPI σ) (ch : ChallengeRequest)
    (crn : GoString) (hr : ListDnsSucceeds api) (zones : List Zone) (s : σ) :
    (CleanUp.rangeZones api ch crn zones s).fatal = false ∧
      deleteCalls (CleanUp.rangeZones api ch crn zones s).trace =
        (forEach (CleanUp.expectedInZone api ch crn) (zones.filter (zoneOwns ch)) s).1 ∧
      (CleanUp.rangeZones api ch crn zones s).state =
        (forEach (CleanUp.expectedInZone api ch crn) (zones.filter (zoneOwns ch)) s).2 := by
  induction zones generalizing s with
  | nil => exact ⟨rfl, rfl, rfl⟩
  | cons z zones ih =>
    unfold CleanUp.rangeZones
    by_cases hz : HasSuffix ch.ResolvedFQDN (z.Name ++ dot) = true
    · have ho : zoneOwns ch z = true := by rw [zoneOwns_eq]; exact hz
      obtain ⟨recs, hrecs⟩ := hr s crn z.Id
      rcases hp : api.ListDns s crn z.Id with ⟨res, s1⟩
      rw [hp] at hrecs
      simp only at hrecs
      subst hrecs
      have hd := rangeRecs_deletes api ch crn z.Id recs s1
      have ih1 := ih (CleanUp.rangeRecs api ch crn z.Id recs s1).2
      simp only [hz, if_true, List.filter_cons, ho, forEach, CleanUp.expectedInZone, hp, listed,
        deleteCalls, deleteCalls_append]
      rw [← hd.2, ← hd.1]
      exact ⟨ih1.1, by rw [ih1.2.1], ih1.2.2⟩
    · have ho : zoneOwns ch z = false := by
        rw [zoneOwns_eq]; simpa using hz
      simp only [hz, List.filter_cons, ho]
      exact ih s

theorem CleanUp_rangeCRN_deletes {σ : Type} (api : CisServiceAPI σ) (ch : ChallengeRequest)
    (hz : ListZonesSucceeds api) (hr : ListDnsSucceeds api) (crns : List GoString) (s : σ) :
    (CleanUp.rangeCRN api ch crns s).fatal = false ∧
      deleteCalls (CleanUp.rangeCRN api ch crns s).trace = (CleanUp.expected api ch crns s).1 ∧
      (CleanUp.rangeCRN api ch crns s).state = (CleanUp.expected api ch crns s).2 := by
  induction crns generalizing s with
  | nil => exact ⟨rfl, rfl, rfl⟩
  | cons crn crns ih =>
    unfold CleanUp.rangeCRN CleanUp.expected
    obtain ⟨zones, hzones⟩ := hz s crn
    rcases hp : api.ListZones s crn with ⟨res, s1⟩
    rw [hp] at hzones
    simp only at hzones
    subst hzones
    have hin := CleanUp_rangeZones_deletes api ch crn hr zones s1
    have ih1 := ih (CleanUp.rangeZones api ch crn zones s1).state
    simp only [hin.1, forEach, CleanUp.expectedInAccount, hp, listed, deleteCalls,
      deleteCalls_append, Bool.false_eq_true, if_false]
    rw [← hin.2.2, ← hin.2.1]
    exact ⟨ih1.1, by rw [ih1.2.1]; rfl, ih1.2.2⟩

theorem isChallengeRecord_iff (ch : ChallengeRequest) (r : DnsRecord) :
    isChallengeRecord ch r = true ↔
      r.DnsType = TXT ∧ r.Name ++ dot = ch.ResolvedFQDN ∧ r.Content = ch.Key := by
  unfold isChallengeRecord
  rw [decide_eq_true_iff]

theorem mem_deleteCalls_append {a b : List Event} {c : DeleteCall}
    (h : c ∈ deleteCalls (a ++ b)) : c ∈ deleteCalls a ∨ c ∈ deleteCalls b := by
  rw [deleteCalls_append] at h
  exact List.mem_append.mp h

theorem CleanUp_rangeZones_deleted_listed {σ : Type} (api : CisServiceAPI σ)
    (ch : ChallengeRequest) (crn : GoString) (zones : List Zone) (s : σ) (c : DeleteCall)
    (hc : c ∈ deleteCalls (CleanUp.rangeZones api ch crn zones s).trace) :
    ∃ recs r, Event.ListDns c.1 c.2.1 (Except.ok recs) ∈
        (CleanUp.rangeZones api ch crn zones s).trace ∧
      r ∈ recs ∧ r.Id = c.2.2 ∧ isChallengeRecord ch r = true := by
  induction zones generalizing s with
  | nil => simp [CleanUp.rangeZones, deleteCalls] at hc
  | cons z zones ih =>
    unfold CleanUp.rangeZones at hc ⊢
    by_cases hz : HasSuffix ch.ResolvedFQDN (z.Name ++ dot) = true
    · rcases hp : api.ListDns s crn z.Id with ⟨res, s1⟩
      cases res with
      | error e => simp [hz, hp, deleteCalls] at hc
      | ok recs =>
        simp only [hz, if_true, hp, deleteCalls] at hc ⊢
        rcases mem_deleteCalls_append hc with h | h
        · rw [(rangeRecs_deletes api ch crn z.Id recs s1).1] at h
          obtain ⟨r, hr, rfl⟩ := List.mem_map.mp h
          rw [List.mem_filter] at hr
          exact ⟨recs, r, List.mem_cons_self _ _, hr.1, rfl, hr.2⟩
        · obtain ⟨recs', r, hm, hr⟩ := ih _ h
          exact ⟨recs', r, List.mem_cons_of_mem _ (List.mem_append_right _ hm), hr⟩
    · simp only [hz] at hc ⊢
      exact ih s hc

theorem CleanUp_rangeCRN_deleted_listed {σ : Type} (api : CisServiceAPI σ)
    (ch : ChallengeRequest) (crns : List GoString) (s : σ) (c : DeleteCall)
    (hc : c ∈ deleteCalls (CleanUp.rangeCRN api ch crns s).trace) :
    ∃ recs r, Event.ListDns c.1 c.2.1 (Except.ok recs) ∈
        (CleanUp.rangeCRN api ch crns s).trace ∧
      r ∈ recs ∧ r.Id = c.2.2 ∧ isChallengeRecord ch r = true := by
  induction crns generalizing s with
  | nil => simp [CleanUp.rangeCRN, deleteCalls] at hc
  | cons crn crns ih =>
    unfold CleanUp.rangeCRN at hc ⊢
    rcases hp : api.ListZones s crn with ⟨res, s1⟩
    cases res with
    | error e => simp [hp, deleteCalls] at hc
    | ok zones =>
      simp only [hp] at hc ⊢
      by_cases hf : (CleanUp.rangeZones api ch crn zones s1).fatal = true
      · simp only [hf, if_true, deleteCalls] at hc ⊢
        obtain ⟨recs, r, hm, hr⟩ := CleanUp_rangeZones_deleted_listed api ch crn zones s1 c hc
        exact ⟨recs, r, List.mem_cons_of_mem _ hm, hr⟩
      · simp only [hf, if_false, deleteCalls] at hc ⊢
        rcases mem_deleteCalls_append hc with h | h
        · obtain ⟨recs, r, hm, hr⟩ := CleanUp_rangeZones_deleted_listed api ch crn zones s1 c h
          exact ⟨recs, r, List.mem_cons_of_mem _ (List.mem_append_left _ hm), hr⟩
        · obtain ⟨recs, r, hm, hr⟩ := ih _ h
          exact ⟨recs, r, List.mem_cons_of_mem _ (List.mem_append_right _ hm), hr⟩

theorem CleanUp_of_decoded {σ : Type} (decodeValue : Decoder) (api : CisServiceAPI σ)
    (ch : ChallengeRequest) (s : σ) (cfg : softlayerDNSProviderConfig)
    (hcfg : loadConfig decodeValue ch.Config = (cfg, none)) :
    CleanUp decodeValue api ch s = (CleanUp.rangeCRN api ch (Split cfg.CisCRN comma) s).toRun := by
  simp only [CleanUp, hcfg]

theorem Present_of_decoded {σ : Type} (decodeValue : Decoder) (api : CisServiceAPI σ)
    (ch : ChallengeRequest) (s : σ) (cfg : softlayerDNSProviderConfig)
    (hcfg : loadConfig decodeValue ch.Config = (cfg, none)) :
    Present decodeValue api ch s = (Present.rangeCRN api ch (Split cfg.CisCRN comma) s).toRun := by
  simp only [Present, hcfg]

/-- C1: when the config decodes and every ListZones and ListDns call succeeds, the
DeleteDns calls of CleanUp are, in order, those of the specification: for each
comma-separated account, for each listed zone whose name plus a dot is a suffix of the
FQDN, for each listed record that is TXT, has name plus a dot equal to the FQDN and has
content equal to the key, one call with the account, the zone id and the record id.
Every call deletes a record that was listed for its zone and meets all three
conditions. -/
theorem CleanUp_deletes_exactly_the_challenge_records {σ : Type} (decodeValue : Decoder)
    (api : CisServiceAPI σ) (ch : ChallengeRequest) (s : σ) (cfg : softlayerDNSProviderConfig)
    (hcfg : loadConfig decodeValue ch.Config = (cfg, none))
    (hz : ListZonesSucceeds api) (hr : ListDnsSucceeds api) :
    deleteCalls (CleanUp decodeValue api ch s).trace =
        (CleanUp.expected api ch (Split cfg.CisCRN comma) s).1 ∧
      ∀ c ∈ deleteCalls (CleanUp decodeValue api ch s).trace,
        ∃ recs r, Event.ListDns c.1 c.2.1 (Except.ok recs) ∈ (CleanUp decodeValue api ch s).trace ∧
          r ∈ recs ∧ r.Id = c.2.2 ∧
          r.DnsType = TXT ∧ r.Name ++ dot = ch.ResolvedFQDN ∧ r.Content = ch.Key := by
  rw [CleanUp_of_decoded decodeValue api ch s cfg hcfg]
  refine ⟨(CleanUp_rangeCRN_deletes api ch hz hr _ s).2.1, ?_⟩
  intro c hc
  obtain ⟨recs, r, hm, hr1, hr2, hr3⟩ := CleanUp_rangeCRN_deleted_listed api ch _ s c hc
  exact ⟨recs, r, hm, hr1, hr2, (isChallengeRecord_iff ch r).mp hr3⟩

/-! ### The creations of Present -/

theorem Present_rangeZones_creates {σ : Type} (api : CisServiceAPI σ) (ch : ChallengeRequest)
    (crn : GoString) (zones : List Zone) (s : σ) :
    createCalls (Present.rangeZones api ch crn zones s).1 =
        (forEach (fun z s =>
            ([(crn, z.Id, challengeBody ch)], (api.CreateDns s crn z.Id (challengeBody ch)).2))
          (zones.filter (zoneOwns ch)) s).1 ∧
      (Present.rangeZones api ch crn zones s).2 =
        (forEach (fun z s =>
            ([(crn, z.Id, challengeBody ch)], (api.CreateDns s crn z.Id (challengeBody ch)).2))
          (zones.filter (zoneOwns ch)) s).2 := by
  induction zones generalizing s with
  | nil => exact ⟨rfl, rfl⟩
  | cons z zones ih =>
    unfold Present.rangeZones
    by_cases hz : HasSuffix ch.ResolvedFQDN (z.Name ++ dot) = true
    · have ho : zoneOwns ch z = true := by rw [zoneOwns_eq]; exact hz
      have ih1 := ih (api.CreateDns s crn z.Id (challengeBody ch)).2
      simp only [hz, if_true, List.filter_cons, ho, forEach, createCalls, List.singleton_append]
      exact ⟨by rw [← ih1.1]; rfl, ih1.2⟩
    · have ho : zoneOwns ch z = false := by
        rw [zoneOwns_eq]; simpa using hz
      simp only [hz, List.filter_cons, ho]
      exact ih s

theorem Present_rangeCRN_creates {σ : Type} (api : CisServiceAPI σ) (ch : ChallengeRequest)
    (hz : ListZonesSucceeds api) (crns : List GoString) (s : σ) :
    (Present.rangeCRN api ch crns s).fatal = false ∧
      createCalls (Present.rangeCRN api ch crns s).trace = (Present.expected api ch crns s).1 ∧
      (Present.rangeCRN api ch crns s).state = (Present.expected api ch crns s).2 := by
  induction crns generalizing s with
  | nil => exact ⟨rfl, rfl, rfl⟩
  | cons crn crns ih =>
    unfold Present.rangeCRN Present.expected
    obtain ⟨zones, hzones⟩ := hz s crn
    rcases hp : api.ListZones s crn with ⟨res, s1⟩
    rw [hp] at hzones
    simp only at hzones
    subst hzones
    have hin := Present_rangeZones_creates api ch crn zones s1
    have ih1 := ih (Present.rangeZones api ch crn zones s1).2
    simp only [forEach, Present.expectedInAccount, hp, listed, createCalls, createCalls_append]
    rw [← hin.2, ← hin.1]
    exact ⟨ih1.1, by rw [ih1.2.1]; rfl, ih1.2.2⟩

/-- C2: when the config decodes and every ListZones call succeeds, the CreateDns calls
of Present are, in order, those of the specification: for each comma-separated account,
for each listed zone, one call with the account, the zone id and the body (name the
FQDN, type TXT, content the key) exactly when the zone name plus a dot is a suffix of
the FQDN. -/
theorem Present_creates_exactly_in_the_owning_zones {σ : Type} (decodeValue : Decoder)
    (api : CisServiceAPI σ) (ch : ChallengeRequest) (s : σ) (cfg : softlayerDNSProviderConfig)
    (hcfg : loadConfig decodeValue ch.Config = (cfg, none)) (hz : ListZonesSucceeds api) :
    createCalls (Present decodeValue api ch s).trace =
      (Present.expected api ch (Split cfg.CisCRN comma) s).1 := by
  rw [Present_of_decoded decodeValue api ch s cfg hcfg]
  exact (Present_rangeCRN_creates api ch hz _ s).2.1

/-! ### CleanUp over the in-memory service -/

theorem mem_recordsOf (s : CisState) (crn zoneId : GoString) (r : DnsRecord) :
    r ∈ s.recordsOf crn zoneId ↔ (crn, zoneId, r) ∈ s.records := by
  unfold CisState.recordsOf
  simp only [List.mem_map, List.mem_filter, decide_eq_true_eq]
  constructor
  · rintro ⟨⟨c, z, r'⟩, ⟨hm, h1, h2⟩, h3⟩
    simp only at h1 h2 h3
    subst h1 h2 h3
    exact hm
  · intro h
    exact ⟨(crn, zoneId, r), ⟨h, rfl, rfl⟩, rfl⟩

theorem Shrinks.refl (s : CisState) : Shrinks s s := ⟨rfl, fun _ h => h⟩

theorem Shrinks.trans {s t u : CisState} (h1 : Shrinks s t) (h2 : Shrinks t u) : Shrinks s u :=
  ⟨h2.1.trans h1.1, fun e he => h1.2 e (h2.2 e he)⟩

theorem Shrinks.zonesOf {s t : CisState} (h : Shrinks s t) (crn : GoString) :
    t.zonesOf crn = s.zonesOf crn := by
  unfold CisState.zonesOf
  rw [h.1]

theorem Clean.shrinks {ch : ChallengeRequest} {s t : CisState} {crn zoneId : GoString}
    (hc : Clean ch s crn zoneId) (h : Shrinks s t) : Clean ch t crn zoneId := by
  intro r hr
  rw [mem_recordsOf] at hr
  exact hc r ((mem_recordsOf _ _ _ _).mpr (h.2 _ hr))

theorem memory_DeleteDns_shrinks (sn : GoString → GoString) (nid : CisState → GoString)
    (s : CisState) (crn zoneId dnsId : GoString) :
    Shrinks s ((memoryAPI sn nid).DeleteDns s crn zoneId dnsId).2 := by
  refine ⟨rfl, ?_⟩
  intro e he
  simp only [memoryAPI, List.mem_filter] at he
  exact he.1

theorem memory_afterDeletes (sn : GoString → GoString) (nid : CisState → GoString)
    (calls : List DeleteCall) (s : CisState) :
    Shrinks s (afterDeletes (memoryAPI sn nid) calls s) ∧
      ∀ c ∈ calls, ∀ e ∈ (afterDeletes (memoryAPI sn nid) calls s).records,
        ¬ (e.1 = c.1 ∧ e.2.1 = c.2.1 ∧ e.2.2.Id = c.2.2) := by
  induction calls generalizing s with
  | nil => exact ⟨Shrinks.refl s, fun c hc => by simp at hc⟩
  | cons c calls ih =>
    have ih1 := ih (((memoryAPI sn nid).DeleteDns s c.1 c.2.1 c.2.2).2)
    have hs := memory_DeleteDns_shrinks sn nid s c.1 c.2.1 c.2.2
    simp only [afterDeletes, List.foldl_cons] at ih1 ⊢
    refine ⟨hs.trans ih1.1, ?_⟩
    intro c' hc' e he
    rcases List.mem_cons.mp hc' with rfl | hc'
    · have := ih1.1.2 e he
      simp only [memoryAPI, List.mem_filter, Bool.not_eq_true', decide_eq_false_iff_not] at this
      exact this.2
    · exact ih1.2 c' hc' e he

theorem memory_rangeRecs (sn : GoString → GoString) (nid : CisState → GoString)
    (ch : ChallengeRequest) (crn zoneId : GoString) (recs : List DnsRecord) (s : CisState) :
    Shrinks s (CleanUp.rangeRecs (memoryAPI sn nid) ch crn zoneId recs s).2 ∧
      (∀ r ∈ recs, isChallengeRecord ch r = true →
        (crn, zoneId, r) ∉ (CleanUp.rangeRecs (memoryAPI sn nid) ch crn zoneId recs s).2.records) ∧
      ((∀ r ∈ recs, isChallengeRecord ch r = false) →
        deleteCalls (CleanUp.rangeRecs (memoryAPI sn nid) ch crn zoneId recs s).1 = [] ∧
        (CleanUp.rangeRecs (memoryAPI sn nid) ch crn zoneId recs s).2 = s) := by
  have hd := rangeRecs_deletes (memoryAPI sn nid) ch crn zoneId recs s
  have ha := memory_afterDeletes sn nid
    ((recs.filter (isChallengeRecord ch)).map (fun r => (crn, zoneId, r.Id))) s
  rw [← hd.2] at ha
  refine ⟨ha.1, ?_, ?_⟩
  · intro r hr hc hm
    have hcall : (crn, zoneId, r.Id) ∈
        (recs.filter (isChallengeRecord ch)).map (fun r => (crn, zoneId, r.Id)) :=
      List.mem_map.mpr ⟨r, List.mem_filter.mpr ⟨hr, hc⟩, rfl⟩
    exact ha.2 _ hcall _ hm ⟨rfl, rfl, rfl⟩
  · intro hall
    have hnil : recs.filter (isChallengeRecord ch) = [] := by
      rw [List.filter_eq_nil_iff]
      intro r hr
      simp [hall r hr]
    rw [hd.1, hd.2, hnil]
    exact ⟨rfl, rfl⟩

theorem memory_rangeZones (sn : GoString → GoString) (nid : CisState → GoString)
    (ch : ChallengeRequest) (crn : GoString) (zones : List Zone) (s : CisState) :
    (CleanUp.rangeZones (memoryAPI sn nid) ch crn zones s).fatal = false ∧
      Shrinks s (CleanUp.rangeZones (memoryAPI sn nid) ch crn zones s).state ∧
      (∀ z ∈ zones, HasSuffix ch.ResolvedFQDN (z.Name ++ dot) = true →
        Clean ch (CleanUp.rangeZones (memoryAPI sn nid) ch crn zones s).state crn z.Id) ∧
      ((∀ z ∈ zones, HasSuffix ch.ResolvedFQDN (z.Name ++ dot) = true → Clean ch s crn z.Id) →
        deleteCalls (CleanUp.rangeZones (memoryAPI sn nid) ch crn zones s).trace = [] ∧
        (CleanUp.rangeZones (memoryAPI sn nid) ch crn zones s).state = s) := by
  induction zones generalizing s with
  | nil =>
    exact ⟨rfl, Shrinks.refl s, fun z hz => by simp at hz, fun _ => ⟨rfl, rfl⟩⟩
  | cons z zones ih =>
    unfold CleanUp.rangeZones
    by_cases hz : HasSuffix ch.ResolvedFQDN (z.Name ++ dot) = true
    · have hp : (memoryAPI sn nid).ListDns s crn z.Id = (Except.ok (s.recordsOf crn z.Id), s) := rfl
      have hin := memory_rangeRecs sn nid ch crn z.Id (s.recordsOf crn z.Id) s
      have ih1 := ih (CleanUp.rangeRecs (memoryAPI sn nid) ch crn z.Id (s.recordsOf crn z.Id) s).2
      simp only [hz, if_true, hp]
      refine ⟨ih1.1, hin.1.trans ih1.2.1, ?_, ?_⟩
      · intro z' hz' ho
        rcases List.mem_cons.mp hz' with rfl | hz'
        · refine Clean.shrinks ?_ ih1.2.1
          intro r hr
          rw [mem_recordsOf] at hr
          by_contra hc
          have hc' : isChallengeRecord ch r = true := by simpa using hc
          exact hin.2.1 r ((mem_recordsOf _ _ _ _).mpr (hin.1.2 _ hr)) hc' hr
        · exact ih1.2.2.1 z' hz' ho
      · intro hall
        have h0 := hin.2.2 (hall z (List.mem_cons_self _ _) hz)
        rw [h0.2] at ih1 ⊢
        have h1 := ih1.2.2.2 (fun z' hz' ho => hall z' (List.mem_cons_of_mem _ hz') ho)
        simp only [deleteCalls, deleteCalls_append, h0.1, h1.1, List.nil_append]
        exact ⟨trivial, h1.2⟩
    · have ih1 := ih s
      simp only [hz]
      refine ⟨ih1.1, ih1.2.1, ?_, ?_⟩
      · intro z' hz' ho
        rcases List.mem_cons.mp hz' with rfl | hz'
        · exact absurd ho hz
        · exact ih1.2.2.1 z' hz' ho
      · intro hall
        exact ih1.2.2.2 (fun z' hz' ho => hall z' (List.mem_cons_of_mem _ hz') ho)

theorem memory_rangeCRN (sn : GoString → GoString) (nid : CisState → GoString)
    (ch : ChallengeRequest) (crns : List GoString) (s : CisState) :
    (CleanUp.rangeCRN (memoryAPI sn nid) ch crns s).fatal = false ∧
      Shrinks s (CleanUp.rangeCRN (memoryAPI sn nid) ch crns s).state ∧
      (∀ crn ∈ crns, ∀ z ∈ s.zonesOf crn, HasSuffix ch.ResolvedFQDN (z.Name ++ dot) = true →
        Clean ch (CleanUp.rangeCRN (memoryAPI sn nid) ch crns s).state crn z.Id) ∧
      ((∀ crn ∈ crns, ∀ z ∈ s.zonesOf crn, HasSuffix ch.ResolvedFQDN (z.Name ++ dot) = true →
          Clean ch s crn z.Id) →
        deleteCalls (CleanUp.rangeCRN (memoryAPI sn nid) ch crns s).trace = [] ∧
        (CleanUp.rangeCRN (memoryAPI sn nid) ch crns s).state = s) := by
  induction crns generalizing s with
  | nil =>
    exact ⟨rfl, Shrinks.refl s, fun c hc => by simp at hc, fun _ => ⟨rfl, rfl⟩⟩
  | cons crn crns ih =>
    unfold CleanUp.rangeCRN
    have hp : (memoryAPI sn nid).ListZones s crn = (Except.ok (s.zonesOf crn), s) := rfl
    have hin := memory_rangeZones sn nid ch crn (s.zonesOf crn) s
    have ih1 := ih (CleanUp.rangeZones (memoryAPI sn nid) ch crn (s.zonesOf crn) s).state
    simp only [hp, hin.1, Bool.false_eq_true, if_false]
    refine ⟨ih1.1, hin.2.1.trans ih1.2.1, ?_, ?_⟩
    · intro crn' hcrn' z hz ho
      rcases List.mem_cons.mp hcrn' with rfl | hcrn'
      · exact Clean.shrinks (hin.2.2.1 z hz ho) ih1.2.1
      · refine ih1.2.2.1 crn' hcrn' z ?_ ho
        rw [hin.2.1.zonesOf]
        exact hz
    · intro hall
      have h0 := hin.2.2.2 (hall crn (List.mem_cons_self _ _))
      rw [h0.2] at ih1 ⊢
      have h1 := ih1.2.2.2 (fun c hc => hall c (List.mem_cons_of_mem _ hc))
      simp only [deleteCalls, deleteCalls_append, h0.1, h1.1, List.nil_append]
      exact ⟨trivial, h1.2⟩

theorem CleanUp_of_rejected {σ : Type} (decodeValue : Decoder) (api : CisServiceAPI σ)
    (ch : ChallengeRequest) (s : σ) (cfg : softlayerDNSProviderConfig) (err : GoError)
    (hcfg : loadConfig decodeValue ch.Config = (cfg, some err)) :
    CleanUp decodeValue api ch s =
      { outcome := Outcome.returned (some err), trace := [], state := s } := by
  simp only [CleanUp, hcfg]

theorem Present_of_rejected {σ : Type} (decodeValue : Decoder) (api : CisServiceAPI σ)
    (ch : ChallengeRequest) (s : σ) (cfg : softlayerDNSProviderConfig) (err : GoError)
    (hcfg : loadConfig decodeValue ch.Config = (cfg, some err)) :
    Present decodeValue api ch s =
      { outcome := Outcome.returned (some ("unable to load config: " ++ err))
        trace := [], state := s } := by
  simp only [Present, hcfg]

theorem toRun_outcome_of_not_fatal {σ : Type} (l : Loop σ) (h : l.fatal = false) :
    l.toRun.outcome = Outcome.returned none := by
  simp [Loop.toRun, h]

/-- C3 (amended): over the in-memory service, whatever the request and the state, a
second CleanUp with the same request ends as the first did, issues no DeleteDns call and
leaves the state of the first run unchanged; the runs return nil exactly when the config
of the request decodes. -/
theorem CleanUp_twice_deletes_nothing_more (decodeValue : Decoder)
    (sn : GoString → GoString) (nid : CisState → GoString) (ch : ChallengeRequest)
    (s : CisState) :
    (CleanUp decodeValue (memoryAPI sn nid) ch
        (CleanUp decodeValue (memoryAPI sn nid) ch s).state).outcome =
        (CleanUp decodeValue (memoryAPI sn nid) ch s).outcome ∧
      ((CleanUp decodeValue (memoryAPI sn nid) ch s).outcome = Outcome.returned none ↔
        (loadConfig decodeValue ch.Config).2 = none) ∧
      deleteCalls (CleanUp decodeValue (memoryAPI sn nid) ch
        (CleanUp decodeValue (memoryAPI sn nid) ch s).state).trace = [] ∧
      (CleanUp decodeValue (memoryAPI sn nid) ch
        (CleanUp decodeValue (memoryAPI sn nid) ch s).state).state =
        (CleanUp decodeValue (memoryAPI sn nid) ch s).state := by
  rcases h : loadConfig decodeValue ch.Config with ⟨cfg, err⟩
  cases err with
  | some e =>
    simp only [CleanUp_of_rejected decodeValue _ ch _ cfg e h]
    simp [deleteCalls]
  | none =>
    simp only [CleanUp_of_decoded decodeValue _ ch _ cfg h]
    have h1 := memory_rangeCRN sn nid ch (Split cfg.CisCRN comma) s
    have h2 := memory_rangeCRN sn nid ch (Split cfg.CisCRN comma)
      (CleanUp.rangeCRN (memoryAPI sn nid) ch (Split cfg.CisCRN comma) s).state
    have hnoop := h2.2.2.2 (by
      intro crn hcrn z hz ho
      rw [h1.2.1.zonesOf] at hz
      exact h1.2.2.1 crn hcrn z hz ho)
    refine ⟨?_, ?_, hnoop.1, hnoop.2⟩
    · rw [toRun_outcome_of_not_fatal _ h1.1]
      exact toRun_outcome_of_not_fatal _ h2.1
    · simp [toRun_outcome_of_not_fatal _ h1.1]

/-! ### Present and then CleanUp over the in-memory service -/

theorem HasSuffix_of_append {s a t : GoString} (h : HasSuffix s (a ++ t) = true) :
    HasSuffix s t = true := by
  rw [HasSuffix_iff] at h ⊢
  exact (List.suffix_append a t).trans h

theorem TrimSuffix_append {s t : GoString} (h : HasSuffix s t = true) :
    TrimSuffix s t ++ t = s := by
  unfold TrimSuffix
  rw [if_pos h]
  have h1 := (HasSuffix_iff s t).mp h
  rw [List.suffix_iff_eq_drop] at h1
  conv_lhs => rw [h1]
  rw [List.length_drop]
  have hl : t.length ≤ s.length := (HasSuffix_iff s t).mp h |>.length_le
  have : s.length - (s.length - (s.length - t.length)) = s.length - t.length := by omega
  rw [this]
  exact List.take_append_drop _ _

theorem memory_Present_rangeZones (sn : GoString → GoString) (nid : CisState → GoString)
    (ch : ChallengeRequest) (crn : GoString) (zones : List Zone) (s : CisState) :
    (Present.rangeZones (memoryAPI sn nid) ch crn zones s).2.zones = s.zones ∧
      (∀ e ∈ s.records, e ∈ (Present.rangeZones (memoryAPI sn nid) ch crn zones s).2.records) ∧
      (∀ c zoneId body res,
        Event.CreateDns c zoneId body res ∈
            (Present.rangeZones (memoryAPI sn nid) ch crn zones s).1 →
          c = crn ∧ ∃ z ∈ zones, HasSuffix ch.ResolvedFQDN (z.Name ++ dot) = true ∧
            zoneId = z.Id ∧ ∃ rec, res = Except.ok rec ∧ rec.Name = sn ch.ResolvedFQDN ∧
              rec.DnsType = TXT ∧ rec.Content = ch.Key ∧
              (crn, zoneId, rec) ∈
                (Present.rangeZones (memoryAPI sn nid) ch crn zones s).2.records) ∧
      (∀ z ∈ zones, HasSuffix ch.ResolvedFQDN (z.Name ++ dot) = true →
        createCalls (Present.rangeZones (memoryAPI sn nid) ch crn zones s).1 ≠ []) := by
  induction zones generalizing s with
  | nil =>
    refine ⟨rfl, fun _ h => h, ?_, fun z hz => by simp at hz⟩
    intro c zoneId body res h
    simp [Present.rangeZones] at h
  | cons z zones ih =>
    unfold Present.rangeZones
    by_cases hz : HasSuffix ch.ResolvedFQDN (z.Name ++ dot) = true
    · have ih1 := ih ((memoryAPI sn nid).CreateDns s crn z.Id
        { Name := ch.ResolvedFQDN, DnsType := TXT, Content := ch.Key }).2
      simp only [hz, if_true]
      refine ⟨ih1.1, ?_, ?_, ?_⟩
      · intro e he
        refine ih1.2.1 e ?_
        simp only [memoryAPI, List.mem_append]
        exact Or.inl he
      · intro c zoneId body res h
        rcases List.mem_cons.mp h with h | h
        · injection h with h1 h2 h3 h4
          subst h1 h2 h3 h4
          refine ⟨rfl, z, List.mem_cons_self _ _, hz, rfl, _, rfl, rfl, rfl, rfl, ?_⟩
          refine ih1.2.1 _ ?_
          simp only [memoryAPI, List.mem_append, List.mem_singleton]
          exact Or.inr trivial
        · obtain ⟨hc, z', hz', hrest⟩ := ih1.2.2.1 c zoneId body res h
          exact ⟨hc, z', List.mem_cons_of_mem _ hz', hrest⟩
      · intro _ _ _
        simp [createCalls]
    · have ih1 := ih s
      simp only [hz]
      refine ⟨ih1.1, ih1.2.1, ?_, ?_⟩
      · intro c zoneId body res h
        obtain ⟨hc, z', hz', hrest⟩ := ih1.2.2.1 c zoneId body res h
        exact ⟨hc, z', List.mem_cons_of_mem _ hz', hrest⟩
      · intro z' hz' ho
        rcases List.mem_cons.mp hz' with rfl | hz'
        · exact absurd ho hz
        · exact ih1.2.2.2 z' hz' ho

theorem mem_createCalls {t : List Event} {c : CreateCall} (h : c ∈ createCalls t) :
    ∃ res, Event.CreateDns c.1 c.2.1 c.2.2 res ∈ t := by
  induction t with
  | nil => simp [createCalls] at h
  | cons e t ih =>
    cases e with
    | CreateDns crn zoneId body res =>
      simp only [createCalls, List.mem_cons] at h
      rcases h with rfl | h
      · exact ⟨res, List.mem_cons_self _ _⟩
      · obtain ⟨r, hr⟩ := ih h
        exact ⟨r, List.mem_cons_of_mem _ hr⟩
    | ListZones _ _ =>
      obtain ⟨r, hr⟩ := ih (by simpa [createCalls] using h)
      exact ⟨r, List.mem_cons_of_mem _ hr⟩
    | ListDns _ _ _ =>
      obtain ⟨r, hr⟩ := ih (by simpa [createCalls] using h)
      exact ⟨r, List.mem_cons_of_mem _ hr⟩
    | DeleteDns _ _ _ _ =>
      obtain ⟨r, hr⟩ := ih (by simpa [createCalls] using h)
      exact ⟨r, List.mem_cons_of_mem _ hr⟩

theorem zonesOf_of_zones_eq {s t : CisState} (h : t.zones = s.zones) (crn : GoString) :
    t.zonesOf crn = s.zonesOf crn := by
  unfold CisState.zonesOf
  rw [h]

theorem memory_Present_rangeCRN (sn : GoString → GoString) (nid : CisState → GoString)
    (ch : ChallengeRequest) (crns : List GoString) (s : CisState) :
    (Present.rangeCRN (memoryAPI sn nid) ch crns s).fatal = false ∧
      (Present.rangeCRN (memoryAPI sn nid) ch crns s).state.zones = s.zones ∧
      (∀ e ∈ s.records, e ∈ (Present.rangeCRN (memoryAPI sn nid) ch crns s).state.records) ∧
      (∀ c zoneId body res,
        Event.CreateDns c zoneId body res ∈ (Present.rangeCRN (memoryAPI sn nid) ch crns s).trace →
          c ∈ crns ∧ ∃ z ∈ s.zonesOf c, HasSuffix ch.ResolvedFQDN (z.Name ++ dot) = true ∧
            zoneId = z.Id ∧ ∃ rec, res = Except.ok rec ∧ rec.Name = sn ch.ResolvedFQDN ∧
              rec.DnsType = TXT ∧ rec.Content = ch.Key ∧
              (c, zoneId, rec) ∈ (Present.rangeCRN (memoryAPI sn nid) ch crns s).state.records) ∧
      (∀ crn ∈ crns, ∀ z ∈ s.zonesOf crn, HasSuffix ch.ResolvedFQDN (z.Name ++ dot) = true →
        createCalls (Present.rangeCRN (memoryAPI sn nid) ch crns s).trace ≠ []) := by
  induction crns generalizing s with
  | nil =>
    refine ⟨rfl, rfl, fun _ h => h, ?_, fun c hc => by simp at hc⟩
    intro c zoneId body res h
    simp [Present.rangeCRN] at h
  | cons crn crns ih =>
    unfold Present.rangeCRN
    have hp : (memoryAPI sn nid).ListZones s crn = (Except.ok (s.zonesOf crn), s) := rfl
    have hin := memory_Present_rangeZones sn nid ch crn (s.zonesOf crn) s
    have ih1 := ih (Present.rangeZones (memoryAPI sn nid) ch crn (s.zonesOf crn) s).2
    simp only [hp]
    refine ⟨ih1.1, ih1.2.1.trans hin.1, fun e he => ih1.2.2.1 e (hin.2.1 e he), ?_, ?_⟩
    · intro c zoneId body res h
      rcases List.mem_cons.mp h with h | h
      · exact absurd h (by simp)
      rcases List.mem_append.mp h with h | h
      · obtain ⟨hc, z, hz, ho, hid, rec, hres, hn, ht, hk, hm⟩ := hin.2.2.1 c zoneId body res h
        subst hc
        exact ⟨List.mem_cons_self _ _, z, hz, ho, hid, rec, hres, hn, ht, hk, ih1.2.2.1 _ hm⟩
      · obtain ⟨hc, z, hz, hrest⟩ := ih1.2.2.2.1 c zoneId body res h
        rw [zonesOf_of_zones_eq hin.1] at hz
        exact ⟨List.mem_cons_of_mem _ hc, z, hz, hrest⟩
    · intro crn' hcrn' z hz ho
      simp only [createCalls, createCalls_append]
      rcases List.mem_cons.mp hcrn' with rfl | hcrn'
      · have := hin.2.2.2 z hz ho
        intro hnil
        exact this (List.append_eq_nil.mp hnil).1
      · rw [← zonesOf_of_zones_eq hin.1] at hz
        have := ih1.2.2.2.2 crn' hcrn' z hz ho
        intro hnil
        exact this (List.append_eq_nil.mp hnil).2

/-- C9 (amended): over an in-memory service that stores a created record under the
name without its final dot, when the config decodes, Present and then CleanUp with the
same request both return nil, every record that Present created is in the state after
Present and is no longer in the state after CleanUp, and Present creates a record
exactly when the FQDN matches a listed zone of one of the accounts. -/
theorem Present_then_CleanUp_removes_the_created_records (decodeValue : Decoder)
    (nid : CisState → GoString) (ch : ChallengeRequest) (s : CisState)
    (cfg : softlayerDNSProviderConfig)
    (hcfg : loadConfig decodeValue ch.Config = (cfg, none)) :
    (Present decodeValue (trimmingAPI nid) ch s).outcome = Outcome.returned none ∧
      (CleanUp decodeValue (trimmingAPI nid) ch
        (Present decodeValue (trimmingAPI nid) ch s).state).outcome = Outcome.returned none ∧
      (∀ crn zoneId body rec,
        Event.CreateDns crn zoneId body (Except.ok rec) ∈
            (Present decodeValue (trimmingAPI nid) ch s).trace →
          (crn, zoneId, rec) ∈ (Present decodeValue (trimmingAPI nid) ch s).state.records ∧
          (crn, zoneId, rec) ∉ (CleanUp decodeValue (trimmingAPI nid) ch
            (Present decodeValue (trimmingAPI nid) ch s).state).state.records) ∧
      (createCalls (Present decodeValue (trimmingAPI nid) ch s).trace ≠ [] ↔
        ∃ crn ∈ Split cfg.CisCRN comma, ∃ z ∈ s.zonesOf crn,
          z.Name ++ dot <:+ ch.ResolvedFQDN) := by
  rw [CleanUp_of_decoded decodeValue _ ch _ cfg hcfg,
    Present_of_decoded decodeValue _ ch _ cfg hcfg]
  unfold trimmingAPI
  have hP := memory_Present_rangeCRN (fun name => TrimSuffix name dot) nid ch
    (Split cfg.CisCRN comma) s
  have hC := memory_rangeCRN (fun name => TrimSuffix name dot) nid ch (Split cfg.CisCRN comma)
    (Present.rangeCRN (memoryAPI (fun name => TrimSuffix name dot) nid) ch
      (Split cfg.CisCRN comma) s).state
  refine ⟨toRun_outcome_of_not_fatal _ hP.1, toRun_outcome_of_not_fatal _ hC.1, ?_, ?_⟩
  · intro crn zoneId body rec hev
    obtain ⟨hc, z, hz, ho, hid, rec', hres, hn, ht, hk, hm⟩ := hP.2.2.2.1 crn zoneId body _ hev
    injection hres with hres
    subst hres hid
    refine ⟨hm, ?_⟩
    intro hfin
    have hz' : z ∈ (Present.rangeCRN (memoryAPI (fun name => TrimSuffix name dot) nid) ch
        (Split cfg.CisCRN comma) s).state.zonesOf crn := by
      rw [zonesOf_of_zones_eq hP.2.1]
      exact hz
    have hclean := hC.2.2.1 crn hc z hz' ho rec ((mem_recordsOf _ _ _ _).mpr hfin)
    have hchal : isChallengeRecord ch rec = true := by
      refine isChallengeRecord_eq_true ch rec ht ?_ hk
      rw [hn]
      exact TrimSuffix_append (HasSuffix_of_append ho)
    rw [hchal] at hclean
    exact absurd hclean (by simp)
  · constructor
    · intro hne
      obtain ⟨c, hc⟩ := List.exists_mem_of_ne_nil _ hne
      obtain ⟨res, hev⟩ := mem_createCalls hc
      obtain ⟨hcrn, z, hz, ho, _⟩ := hP.2.2.2.1 _ _ _ _ hev
      exact ⟨c.1, hcrn, z, hz, (HasSuffix_iff _ _).mp ho⟩
    · rintro ⟨crn, hcrn, z, hz, ho⟩
      exact hP.2.2.2.2 crn hcrn z hz ((HasSuffix_iff _ _).mpr ho)

/-! ### When the process is aborted -/

theorem Present_rangeZones_no_failed_list {σ : Type} (api : CisServiceAPI σ)
    (ch : ChallengeRequest) (crn : GoString) (zones : List Zone) (s : σ) :
    (Present.rangeZones api ch crn zones s).1.any Event.isFailedList = false := by
  induction zones generalizing s with
  | nil => rfl
  | cons z zones ih =>
    unfold Present.rangeZones
    split
    · simp only [List.any_cons, Event.isFailedList, Bool.false_or]
      exact ih _
    · exact ih s

theorem Present_rangeCRN_fatal {σ : Type} (api : CisServiceAPI σ) (ch : ChallengeRequest)
    (crns : List GoString) (s : σ) :
    (Present.rangeCRN api ch crns s).trace.any Event.isFailedList =
      (Present.rangeCRN api ch crns s).fatal := by
  induction crns generalizing s with
  | nil => rfl
  | cons crn crns ih =>
    unfold Present.rangeCRN
    rcases hp : api.ListZones s crn with ⟨res, s1⟩
    cases res with
    | error e => simp [Event.isFailedList]
    | ok zones =>
      simp only [List.any_cons, List.any_append, Event.isFailedList, Bool.false_or,
        Present_rangeZones_no_failed_list]
      exact ih _

theorem CleanUp_rangeRecs_no_failed_list {σ : Type} (api : CisServiceAPI σ)
    (ch : ChallengeRequest) (crn zoneId : GoString) (recs : List DnsRecord) (s : σ) :
    (CleanUp.rangeRecs api ch crn zoneId recs s).1.any Event.isFailedList = false := by
  induction recs generalizing s with
  | nil => rfl
  | cons r recs ih =>
    unfold CleanUp.rangeRecs
    split
    · exact ih s
    · split
      · exact ih s
      · split
        · exact ih s
        · simp only [List.any_cons, Event.isFailedList, Bool.false_or]
          exact ih _

theorem CleanUp_rangeZones_fatal {σ : Type} (api : CisServiceAPI σ) (ch : ChallengeRequest)
    (crn : GoString) (zones : List Zone) (s : σ) :
    (CleanUp.rangeZones api ch crn zones s).trace.any Event.isFailedList =
      (CleanUp.rangeZones api ch crn zones s).fatal := by
  induction zones generalizing s with
  | nil => rfl
  | cons z zones ih =>
    unfold CleanUp.rangeZones
    split
    · rcases hp : api.ListDns s crn z.Id with ⟨res, s1⟩
      cases res with
      | error e => simp [Event.isFailedList]
      | ok recs =>
        simp only [List.any_cons, List.any_append, Event.isFailedList, Bool.false_or,
          CleanUp_rangeRecs_no_failed_list]
        exact ih _
    · exact ih s

theorem CleanUp_rangeCRN_fatal {σ : Type} (api : CisServiceAPI σ) (ch : ChallengeRequest)
    (crns : List GoString) (s : σ) :
    (CleanUp.rangeCRN api ch crns s).trace.any Event.isFailedList =
      (CleanUp.rangeCRN api ch crns s).fatal := by
  induction crns generalizing s with
  | nil => rfl
  | cons crn crns ih =>
    unfold CleanUp.rangeCRN
    rcases hp : api.ListZones s crn with ⟨res, s1⟩
    cases res with
    | error e => simp [Event.isFailedList]
    | ok zones =>
      have hin := CleanUp_rangeZones_fatal api ch crn zones s1
      by_cases hf : (CleanUp.rangeZones api ch crn zones s1).fatal = true
      · simp only [hf, if_true, List.any_cons, Event.isFailedList, Bool.false_or]
        rw [hin, hf]
      · simp only [Bool.not_eq_true] at hf
        simp only [hf, Bool.false_eq_true, if_false, List.any_cons, List.any_append,
          Event.isFailedList, Bool.false_or]
        rw [hin, hf, Bool.false_or]
        exact ih _

theorem toRun_aborted_iff {σ : Type} (l : Loop σ) :
    l.toRun.outcome = Outcome.aborted ↔ l.fatal = true := by
  unfold Loop.toRun
  cases l.fatal <;> simp

/-- C6 (amended): Present and CleanUp return to the caller unless a list call fails.
For every request, decoder, service and state, the process is aborted exactly when the
service answered a ListZones call (or, in CleanUp, a ListDns call) with an error: that
error goes to log.Fatal. A ListZones failure during Present aborts as it does during
CleanUp. -/
theorem aborted_iff_a_list_call_failed {σ : Type} (decodeValue : Decoder)
    (api : CisServiceAPI σ) (ch : ChallengeRequest) (s : σ) :
    ((Present decodeValue api ch s).outcome = Outcome.aborted ↔
        ∃ e ∈ (Present decodeValue api ch s).trace, e.isFailedList = true) ∧
      ((CleanUp decodeValue api ch s).outcome = Outcome.aborted ↔
        ∃ e ∈ (CleanUp decodeValue api ch s).trace, e.isFailedList = true) := by
  rcases h : loadConfig decodeValue ch.Config with ⟨cfg, err⟩
  cases err with
  | some e =>
    rw [Present_of_rejected decodeValue api ch s cfg e h,
      CleanUp_of_rejected decodeValue api ch s cfg e h]
    simp
  | none =>
    rw [Present_of_decoded decodeValue api ch s cfg h,
      CleanUp_of_decoded decodeValue api ch s cfg h]
    simp only [toRun_aborted_iff, ← List.any_eq_true]
    constructor
    · rw [← Present_rangeCRN_fatal]; rfl
    · rw [← CleanUp_rangeCRN_fatal]; rfl

/-! ### Two services that list alike -/

theorem Present_rangeZones_sim {σ τ : Type} (api : CisServiceAPI σ) (api2 : CisServiceAPI τ)
    (R : σ → τ → Prop) (hC : CreatesKeep api api2 R) (ch : ChallengeRequest) (crn : GoString)
    (zones : List Zone) (s : σ) (t : τ) (hR : R s t) :
    createCalls (Present.rangeZones api ch crn zones s).1 =
        createCalls (Present.rangeZones api2 ch crn zones t).1 ∧
      R (Present.rangeZones api ch crn zones s).2 (Present.rangeZones api2 ch crn zones t).2 := by
  induction zones generalizing s t with
  | nil => exact ⟨rfl, hR⟩
  | cons z zones ih =>
    unfold Present.rangeZones
    split
    · have ih1 := ih _ _ (hC s t crn z.Id
        { Name := ch.ResolvedFQDN, DnsType := TXT, Content := ch.Key } hR)
      simp only [createCalls]
      exact ⟨by rw [ih1.1], ih1.2⟩
    · exact ih s t hR

theorem Present_rangeCRN_sim {σ τ : Type} (api : CisServiceAPI σ) (api2 : CisServiceAPI τ)
    (R : σ → τ → Prop) (hZ : ZonesAgree api api2 R) (hC : CreatesKeep api api2 R)
    (ch : ChallengeRequest) (crns : List GoString) (s : σ) (t : τ) (hR : R s t) :
    (Present.rangeCRN api ch crns s).fatal = false ∧
      (Present.rangeCRN api2 ch crns t).fatal = false ∧
      createCalls (Present.rangeCRN api ch crns s).trace =
        createCalls (Present.rangeCRN api2 ch crns t).trace := by
  induction crns generalizing s t with
  | nil => exact ⟨rfl, rfl, rfl⟩
  | cons crn crns ih =>
    unfold Present.rangeCRN
    obtain ⟨zones, h1, h2, h3⟩ := hZ s t crn hR
    rcases hp : api.ListZones s crn with ⟨res, s1⟩
    rcases hq : api2.ListZones t crn with ⟨res2, t1⟩
    rw [hp] at h1 h3
    rw [hq] at h2 h3
    simp only at h1 h2 h3
    subst h1 h2
    have hin := Present_rangeZones_sim api api2 R hC ch crn zones s1 t1 h3
    have ih1 := ih _ _ hin.2
    simp only [createCalls, createCalls_append]
    exact ⟨ih1.1, ih1.2.1, by rw [hin.1, ih1.2.2]⟩

theorem deletesAfterLists_append (ch : ChallengeRequest) (a b : List Event) :
    deletesAfterLists ch (a ++ b) = deletesAfterLists ch a ++ deletesAfterLists ch b := by
  induction a with
  | nil => rfl
  | cons e t ih =>
    cases e with
    | ListDns crn zoneId res =>
      cases res with
      | ok recs => simp [deletesAfterLists, ih]
      | error err => simp [deletesAfterLists, ih]
    | ListZones _ _ => simp [deletesAfterLists, ih]
    | CreateDns _ _ _ _ => simp [deletesAfterLists, ih]
    | DeleteDns _ _ _ _ => simp [deletesAfterLists, ih]

theorem deletesAfterLists_listAnswers (ch : ChallengeRequest) (t : List Event) :
    deletesAfterLists ch (listAnswers t) = deletesAfterLists ch t := by
  induction t with
  | nil => rfl
  | cons e t ih =>
    unfold listAnswers at ih ⊢
    cases e with
    | ListDns crn zoneId res =>
      cases res with
      | ok recs => simp [deletesAfterLists, Event.isList, ih]
      | error err => simp [deletesAfterLists, Event.isList, ih]
    | ListZones _ _ => simp [deletesAfterLists, Event.isList, ih]
    | CreateDns _ _ _ _ => simp [deletesAfterLists, Event.isList, ih]
    | DeleteDns _ _ _ _ => simp [deletesAfterLists, Event.isList, ih]

theorem any_isFailedList_listAnswers (t : List Event) :
    (listAnswers t).any Event.isFailedList = t.any Event.isFailedList := by
  induction t with
  | nil => rfl
  | cons e t ih =>
    unfold listAnswers at ih ⊢
    cases e with
    | ListDns crn zoneId res => simp [Event.isList, ih]
    | ListZones _ _ => simp [Event.isList, ih]
    | CreateDns _ _ _ _ => simp [Event.isList, Event.isFailedList, ih]
    | DeleteDns _ _ _ _ => simp [Event.isList, Event.isFailedList, ih]

theorem CleanUp_rangeRecs_after_lists {σ : Type} (api : CisServiceAPI σ)
    (ch : ChallengeRequest) (crn zoneId : GoString) (recs : List DnsRecord) (s : σ) :
    deletesAfterLists ch (CleanUp.rangeRecs api ch crn zoneId recs s).1 = [] := by
  induction recs generalizing s with
  | nil => rfl
  | cons r recs ih =>
    unfold CleanUp.rangeRecs
    split
    · exact ih s
    · split
      · exact ih s
      · split
        · exact ih s
        · simp only [deletesAfterLists]
          exact ih _

theorem CleanUp_rangeZones_after_lists {σ : Type} (api : CisServiceAPI σ)
    (ch : ChallengeRequest) (crn : GoString) (zones : List Zone) (s : σ) :
    deleteCalls (CleanUp.rangeZones api ch crn zones s).trace =
      deletesAfterLists ch (CleanUp.rangeZones api ch crn zones s).trace := by
  induction zones generalizing s with
  | nil => rfl
  | cons z zones ih =>
    unfold CleanUp.rangeZones
    split
    · rcases hp : api.ListDns s crn z.Id with ⟨res, s1⟩
      cases res with
      | error err => rfl
      | ok recs =>
        simp only [deleteCalls, deleteCalls_append, deletesAfterLists, deletesAfterLists_append,
          CleanUp_rangeRecs_after_lists, List.nil_append]
        rw [(rangeRecs_deletes api ch crn z.Id recs s1).1, ih]
    · exact ih s

theorem CleanUp_rangeCRN_after_lists {σ : Type} (api : CisServiceAPI σ)
    (ch : ChallengeRequest) (crns : List GoString) (s : σ) :
    deleteCalls (CleanUp.rangeCRN api ch crns s).trace =
      deletesAfterLists ch (CleanUp.rangeCRN api ch crns s).trace := by
  induction crns generalizing s with
  | nil => rfl
  | cons crn crns ih =>
    unfold CleanUp.rangeCRN
    rcases hp : api.ListZones s crn with ⟨res, s1⟩
    cases res with
    | error err => rfl
    | ok zones =>
      have hin := CleanUp_rangeZones_after_lists api ch crn zones s1
      by_cases hf : (CleanUp.rangeZones api ch crn zones s1).fatal = true
      · simp only [hf, if_true, deleteCalls, deletesAfterLists]
        exact hin
      · simp only [hf, if_false, deleteCalls, deleteCalls_append, deletesAfterLists,
          deletesAfterLists_append]
        rw [hin, ih]

/-- C10 (amended): the results of CreateDns and DeleteDns never change the result of
Present and CleanUp, and change the calls only through the list answers. When the
config decodes: on any two services that answer ListZones alike on related states,
whatever each answers to CreateDns, Present returns nil and issues the same CreateDns
calls; on every service whose list calls succeed, whatever it answers to DeleteDns,
CleanUp returns nil and its DeleteDns calls are, after each ListDns answer, one per
listed challenge record; so on a second service whose list calls were answered as on the
first, CleanUp returns nil too and issues the same DeleteDns calls. -/
theorem record_failures_change_calls_only_through_listings {σ τ : Type}
    (decodeValue : Decoder) (api : CisServiceAPI σ) (api2 : CisServiceAPI τ)
    (R : σ → τ → Prop) (ch : ChallengeRequest) (cfg : softlayerDNSProviderConfig)
    (s : σ) (t : τ)
    (hcfg : loadConfig decodeValue ch.Config = (cfg, none))
    (hRZ : ZonesAgree api api2 R) (hRC : CreatesKeep api api2 R) (hR : R s t)
    (hz : ListZonesSucceeds api) (hr : ListDnsSucceeds api)
    (hsame : listAnswers (CleanUp decodeValue api2 ch t).trace =
      listAnswers (CleanUp decodeValue api ch s).trace) :
    (Present decodeValue api ch s).outcome = Outcome.returned none ∧
      (Present decodeValue api2 ch t).outcome = Outcome.returned none ∧
      createCalls (Present decodeValue api ch s).trace =
        createCalls (Present decodeValue api2 ch t).trace ∧
      (CleanUp decodeValue api ch s).outcome = Outcome.returned none ∧
      (CleanUp decodeValue api2 ch t).outcome = Outcome.returned none ∧
      deleteCalls (CleanUp decodeValue api ch s).trace =
        deletesAfterLists ch (listAnswers (CleanUp decodeValue api ch s).trace) ∧
      deleteCalls (CleanUp decodeValue api2 ch t).trace =
        deleteCalls (CleanUp decodeValue api ch s).trace := by
  rw [CleanUp_of_decoded decodeValue api ch s cfg hcfg,
    CleanUp_of_decoded decodeValue api2 ch t cfg hcfg] at hsame
  rw [Present_of_decoded decodeValue api ch s cfg hcfg,
    Present_of_decoded decodeValue api2 ch t cfg hcfg,
    CleanUp_of_decoded decodeValue api ch s cfg hcfg,
    CleanUp_of_decoded decodeValue api2 ch t cfg hcfg]
  have hP := Present_rangeCRN_sim api api2 R hRZ hRC ch (Split cfg.CisCRN comma) s t hR
  have hC := (CleanUp_rangeCRN_deletes api ch hz hr (Split cfg.CisCRN comma) s).1
  have hC2 : (CleanUp.rangeCRN api2 ch (Split cfg.CisCRN comma) t).fatal = false := by
    rw [← CleanUp_rangeCRN_fatal, ← any_isFailedList_listAnswers]
    have h := congrArg (fun l => l.any Event.isFailedList) hsame
    simp only [Loop.toRun] at h
    rw [h, any_isFailedList_listAnswers, CleanUp_rangeCRN_fatal]
    exact hC
  have hD := CleanUp_rangeCRN_after_lists api ch (Split cfg.CisCRN comma) s
  have hD2 := CleanUp_rangeCRN_after_lists api2 ch (Split cfg.CisCRN comma) t
  refine ⟨toRun_outcome_of_not_fatal _ hP.1, toRun_outcome_of_not_fatal _ hP.2.1, hP.2.2,
    toRun_outcome_of_not_fatal _ hC, toRun_outcome_of_not_fatal _ hC2, ?_, ?_⟩
  · rw [deletesAfterLists_listAnswers]
    exact hD
  · have h := congrArg (deletesAfterLists ch) hsame
    simp only [Loop.toRun, deletesAfterLists_listAnswers] at h
    show deleteCalls (CleanUp.rangeCRN api2 ch (Split cfg.CisCRN comma) t).trace =
      deleteCalls (CleanUp.rangeCRN api ch (Split cfg.CisCRN comma) s).trace
    rw [hD, hD2]
    exact h

/-! ### Configuration -/

theorem loadConfig_error_iff (decodeValue : Decoder) (cfgJSON : Option JSON) :
    (loadConfig decodeValue cfgJSON).2 ≠ none ↔
      ∃ j, cfgJSON = some j ∧ (jsonUnmarshal decodeValue j.Raw zeroConfig).2 ≠ none := by
  cases cfgJSON with
  | none => simp [loadConfig]
  | some j =>
    simp only [loadConfig, Option.some.injEq, exists_eq_left']
    rcases h : jsonUnmarshal decodeValue j.Raw zeroConfig with ⟨cfg, err⟩
    cases err <;> simp

/-- C4 (amended): loadConfig returns the zero-value config and a nil error when its
argument is nil. When the argument is not nil and Raw is empty, the JSON decoder rejects
the empty input: loadConfig returns the zero-value config with a non-nil error. -/
theorem loadConfig_nil_and_empty (decodeValue : Decoder) :
    loadConfig decodeValue none = (zeroConfig, none) ∧
      loadConfig decodeValue (some { Raw := [] }) =
        (zeroConfig, some "error decoding solver config: unexpected end of JSON input") := by
  constructor
  · rfl
  · rfl

theorem validate_error_iff (cfg : softlayerDNSProviderConfig) :
    validate cfg ≠ none ↔
      cfg.CisCRN = [] ∨ cfg.APIKeySecretRef.LocalObjectReference.Name = [] ∨
        cfg.APIKeySecretRef.Key = [] := by
  unfold validate
  by_cases h1 : cfg.CisCRN = []
  · simp [h1]
  · by_cases h2 : cfg.APIKeySecretRef.LocalObjectReference.Name = []
    · simp [h1, h2]
    · by_cases h3 : cfg.APIKeySecretRef.Key = []
      · simp [h1, h2, h3]
      · simp [h1, h2, h3]

theorem Present_rangeCRN_head {σ : Type} (api : CisServiceAPI σ) (ch : ChallengeRequest)
    (crn : GoString) (crns : List GoString) (s : σ) :
    (Present.rangeCRN api ch (crn :: crns) s).trace.head? =
      some (Event.ListZones crn (api.ListZones s crn).1) := by
  unfold Present.rangeCRN
  rcases hp : api.ListZones s crn with ⟨res, s1⟩
  cases res <;> rfl

theorem CleanUp_rangeCRN_head {σ : Type} (api : CisServiceAPI σ) (ch : ChallengeRequest)
    (crn : GoString) (crns : List GoString) (s : σ) :
    (CleanUp.rangeCRN api ch (crn :: crns) s).trace.head? =
      some (Event.ListZones crn (api.ListZones s crn).1) := by
  unfold CleanUp.rangeCRN
  rcases hp : api.ListZones s crn with ⟨res, s1⟩
  cases res with
  | error e => rfl
  | ok zones =>
    simp only
    split <;> rfl

/-- C5 (amended): validate returns a non-nil error exactly for a config with an empty
CisCRN or a secret reference with an empty name or an empty key, but Present and CleanUp
do not call validate. For every request whose config decodes, to a config that validate
accepts or not, both start with a ListZones call for the first comma-separated segment of
CisCRN (the empty string when CisCRN is empty), and both return nil when the list calls
succeed. -/
theorem config_is_not_validated {σ : Type} (decodeValue : Decoder) (api : CisServiceAPI σ)
    (ch : ChallengeRequest) (s : σ) (cfg : softlayerDNSProviderConfig)
    (hcfg : loadConfig decodeValue ch.Config = (cfg, none))
    (hz : ListZonesSucceeds api) (hr : ListDnsSucceeds api) :
    (validate cfg ≠ none ↔
        cfg.CisCRN = [] ∨ cfg.APIKeySecretRef.LocalObjectReference.Name = [] ∨
          cfg.APIKeySecretRef.Key = []) ∧
      (Present decodeValue api ch s).outcome = Outcome.returned none ∧
      (CleanUp decodeValue api ch s).outcome = Outcome.returned none ∧
      ∃ crn rest, Split cfg.CisCRN comma = crn :: rest ∧
        (Present decodeValue api ch s).trace.head? =
          some (Event.ListZones crn (api.ListZones s crn).1) ∧
        (CleanUp decodeValue api ch s).trace.head? =
          some (Event.ListZones crn (api.ListZones s crn).1) := by
  rw [Present_of_decoded decodeValue api ch s cfg hcfg,
    CleanUp_of_decoded decodeValue api ch s cfg hcfg]
  refine ⟨validate_error_iff cfg,
    toRun_outcome_of_not_fatal _ (Present_rangeCRN_creates api ch hz _ s).1,
    toRun_outcome_of_not_fatal _ (CleanUp_rangeCRN_deletes api ch hz hr _ s).1, ?_⟩
  rcases hsp : Split cfg.CisCRN comma with _ | ⟨crn, rest⟩
  · exact absurd hsp (Split_ne_nil _ _)
  · exact ⟨crn, rest, rfl, Present_rangeCRN_head api ch crn rest s,
      CleanUp_rangeCRN_head api ch crn rest s⟩

/-- C7 (amended): Present and CleanUp treat a zone as a match exactly when the zone
name followed by a dot is a suffix of the FQDN, byte for byte: the FQDN is any prefix
followed by the zone name and a dot, and the prefix need not end at a label boundary.
For a listing of one zone, Present calls CreateDns for it and CleanUp calls ListDns for
it exactly in that case. -/
theorem zone_match_is_plain_suffix {σ : Type} (api : CisServiceAPI σ) (ch : ChallengeRequest)
    (crn : GoString) (z : Zone) (s : σ) :
    (HasSuffix ch.ResolvedFQDN (z.Name ++ dot) = true ↔
        ∃ p, ch.ResolvedFQDN = p ++ (z.Name ++ dot)) ∧
      (createCalls (Present.rangeZones api ch crn [z] s).1 = [(crn, z.Id, challengeBody ch)] ↔
        HasSuffix ch.ResolvedFQDN (z.Name ++ dot) = true) ∧
      ((CleanUp.rangeZones api ch crn [z] s).trace.head? =
          some (Event.ListDns crn z.Id (api.ListDns s crn z.Id).1) ↔
        HasSuffix ch.ResolvedFQDN (z.Name ++ dot) = true) := by
  refine ⟨?_, ?_, ?_⟩
  · rw [HasSuffix_iff]
    constructor
    · rintro ⟨p, hp⟩
      exact ⟨p, hp.symm⟩
    · rintro ⟨p, hp⟩
      exact ⟨p, hp.symm⟩
  · by_cases h : HasSuffix ch.ResolvedFQDN (z.Name ++ dot) = true
    · simp [Present.rangeZones, h, createCalls, challengeBody]
    · simp [Present.rangeZones, h, createCalls]
  · by_cases h : HasSuffix ch.ResolvedFQDN (z.Name ++ dot) = true
    · simp only [CleanUp.rangeZones, h, if_true, iff_true]
      rcases hp : api.ListDns s crn z.Id with ⟨res, s1⟩
      cases res <;> rfl
    · simp [CleanUp.rangeZones, h]

/-- C8: a config that the JSON decoder rejects stops the call before any call to the
service. For every request whose Config is not nil and whose Raw the decoder rejects,
Present and CleanUp return a non-nil error, issue no call and leave the service as it
was; and loadConfig returns a non-nil error exactly when its argument is not nil and the
decoder rejects Raw. -/
theorem decode_failure_is_atomic {σ : Type} (decodeValue : Decoder) (api : CisServiceAPI σ)
    (ch : ChallengeRequest) (s : σ) (j : JSON) (hj : ch.Config = some j)
    (hrej : (jsonUnmarshal decodeValue j.Raw zeroConfig).2 ≠ none) :
    ((∃ err, (Present decodeValue api ch s).outcome = Outcome.returned (some err)) ∧
        (Present decodeValue api ch s).trace = [] ∧ (Present decodeValue api ch s).state = s) ∧
      ((∃ err, (CleanUp decodeValue api ch s).outcome = Outcome.returned (some err)) ∧
        (CleanUp decodeValue api ch s).trace = [] ∧ (CleanUp decodeValue api ch s).state = s) ∧
      ∀ cfgJSON, (loadConfig decodeValue cfgJSON).2 ≠ none ↔
        ∃ j, cfgJSON = some j ∧ (jsonUnmarshal decodeValue j.Raw zeroConfig).2 ≠ none := by
  have herr : (loadConfig decodeValue ch.Config).2 ≠ none :=
    (loadConfig_error_iff decodeValue ch.Config).mpr ⟨j, hj, hrej⟩
  rcases h : loadConfig decodeValue ch.Config with ⟨cfg, err⟩
  rw [h] at herr
  cases err with
  | none => exact absurd rfl herr
  | some e =>
    rw [Present_of_rejected decodeValue api ch s cfg e h,
      CleanUp_of_rejected decodeValue api ch s cfg e h]
    exact ⟨⟨⟨_, rfl⟩, rfl, rfl⟩, ⟨⟨_, rfl⟩, rfl, rfl⟩, loadConfig_error_iff decodeValue⟩

/-! ### The claims on the examples -/

/-- Witness of C1 on `recordsState`: of the five records only the two challenge records
`a` and `e` are deleted, in that order. -/
theorem CleanUp_deletes_exactly_the_challenge_records_witness :
    loadConfig exampleDecoder (exampleRequest "_acme-challenge.example.com.").Config =
        (exampleConfig, none) ∧
      ListZonesSucceeds (trimmingAPI countId) ∧ ListDnsSucceeds (trimmingAPI countId) ∧
      (deleteCalls (CleanUp exampleDecoder (trimmingAPI countId)
            (exampleRequest "_acme-challenge.example.com.") recordsState).trace =
          (CleanUp.expected (trimmingAPI countId) (exampleRequest "_acme-challenge.example.com.")
            (Split exampleConfig.CisCRN comma) recordsState).1 ∧
        ∀ c ∈ deleteCalls (CleanUp exampleDecoder (trimmingAPI countId)
            (exampleRequest "_acme-challenge.example.com.") recordsState).trace,
          ∃ recs r, Event.ListDns c.1 c.2.1 (Except.ok recs) ∈
              (CleanUp exampleDecoder (trimmingAPI countId)
                (exampleRequest "_acme-challenge.example.com.") recordsState).trace ∧
            r ∈ recs ∧ r.Id = c.2.2 ∧ r.DnsType = TXT ∧
            r.Name ++ dot = (exampleRequest "_acme-challenge.example.com.").ResolvedFQDN ∧
            r.Content = (exampleRequest "_acme-challenge.example.com.").Key) ∧
      (CleanUp.expected (trimmingAPI countId) (exampleRequest "_acme-challenge.example.com.")
          (Split exampleConfig.CisCRN comma) recordsState).1 =
        [(lit "crn:1", lit "z1", lit "a"), (lit "crn:2", lit "z4", lit "e")] :=
  ⟨by decide, fun _ _ => ⟨_, rfl⟩, fun _ _ _ => ⟨_, rfl⟩,
    CleanUp_deletes_exactly_the_challenge_records exampleDecoder (trimmingAPI countId)
      (exampleRequest "_acme-challenge.example.com.") recordsState exampleConfig (by decide)
      (fun _ _ => ⟨_, rfl⟩) (fun _ _ _ => ⟨_, rfl⟩),
    by decide⟩

/-- Witness of C2: with the single zone `example.com` there is exactly one CreateDns
call, and with the zones `example.com` and `foo.example.com` the FQDN
`_acme-challenge.foo.example.com.` gets a call for both. -/
theorem Present_creates_exactly_in_the_owning_zones_witness :
    loadConfig exampleDecoder (exampleRequest "_acme-challenge.example.com.").Config =
        (exampleConfig, none) ∧
      ListZonesSucceeds (trimmingAPI countId) ∧
      createCalls (Present exampleDecoder (trimmingAPI countId)
          (exampleRequest "_acme-challenge.example.com.") oneZoneState).trace =
        [(lit "crn:1", lit "z1",
          { Name := lit "_acme-challenge.example.com.", DnsType := lit "TXT"
            Content := lit "token" })] ∧
      createCalls (Present exampleDecoder (trimmingAPI countId)
          (exampleRequest "_acme-challenge.foo.example.com.") nestedZonesState).trace =
        [(lit "crn:1", lit "z1",
          { Name := lit "_acme-challenge.foo.example.com.", DnsType := lit "TXT"
            Content := lit "token" }),
         (lit "crn:1", lit "z2",
          { Name := lit "_acme-challenge.foo.example.com.", DnsType := lit "TXT"
            Content := lit "token" })] :=
  ⟨by decide, fun _ _ => ⟨_, rfl⟩,
    (Present_creates_exactly_in_the_owning_zones exampleDecoder (trimmingAPI countId)
      (exampleRequest "_acme-challenge.example.com.") oneZoneState exampleConfig (by decide)
      (fun _ _ => ⟨_, rfl⟩)).trans (by decide),
    (Present_creates_exactly_in_the_owning_zones exampleDecoder (trimmingAPI countId)
      (exampleRequest "_acme-challenge.foo.example.com.") nestedZonesState exampleConfig
      (by decide) (fun _ _ => ⟨_, rfl⟩)).trans (by decide)⟩

/-- Counterexample to C3 as stated: for a request whose config does not decode (a
config that is not nil with an empty Raw), CleanUp returns an error, on the first run and
on the second. -/
theorem CleanUp_twice_returns_the_decode_error :
    (CleanUp exampleDecoder (trimmingAPI countId) emptyRawRequest recordsState).outcome =
        Outcome.returned (some "error decoding solver config: unexpected end of JSON input") ∧
      (CleanUp exampleDecoder (trimmingAPI countId) emptyRawRequest
          (CleanUp exampleDecoder (trimmingAPI countId) emptyRawRequest recordsState).state).outcome =
        Outcome.returned (some "error decoding solver config: unexpected end of JSON input") :=
  ⟨rfl, rfl⟩

/-- Counterexample to C4 as stated: for an argument that is not nil and has an empty
Raw, loadConfig returns a non-nil error. -/
theorem loadConfig_empty_raw_is_an_error :
    (loadConfig exampleDecoder (some { Raw := [] })).2 =
      some "error decoding solver config: unexpected end of JSON input" := rfl

/-- Counterexample to C5 as stated: a request without config decodes to the zero-value
config, which validate rejects, and yet Present and CleanUp call ListZones (with the empty
account) and return nil. -/
theorem invalid_config_is_not_surfaced :
    loadConfig exampleDecoder noConfigRequest.Config = (zeroConfig, none) ∧
      validate zeroConfig = some "No IBM Cloud Internet Service CRN provided" ∧
      (Present exampleDecoder (trimmingAPI countId) noConfigRequest oneZoneState).outcome =
        Outcome.returned none ∧
      (Present exampleDecoder (trimmingAPI countId) noConfigRequest oneZoneState).trace =
        [Event.ListZones [] (Except.ok [])] ∧
      (CleanUp exampleDecoder (trimmingAPI countId) noConfigRequest oneZoneState).outcome =
        Outcome.returned none ∧
      (CleanUp exampleDecoder (trimmingAPI countId) noConfigRequest oneZoneState).trace =
        [Event.ListZones [] (Except.ok [])] := by
  decide

/-- Witness of C5 (amended) on the request without config. -/
theorem config_is_not_validated_witness :
    loadConfig exampleDecoder noConfigRequest.Config = (zeroConfig, none) ∧
      ListZonesSucceeds (trimmingAPI countId) ∧ ListDnsSucceeds (trimmingAPI countId) ∧
      ((validate zeroConfig ≠ none ↔
          zeroConfig.CisCRN = [] ∨ zeroConfig.APIKeySecretRef.LocalObjectReference.Name = [] ∨
            zeroConfig.APIKeySecretRef.Key = []) ∧
        (Present exampleDecoder (trimmingAPI countId) noConfigRequest oneZoneState).outcome =
          Outcome.returned none ∧
        (CleanUp exampleDecoder (trimmingAPI countId) noConfigRequest oneZoneState).outcome =
          Outcome.returned none ∧
        ∃ crn rest, Split zeroConfig.CisCRN comma = crn :: rest ∧
          (Present exampleDecoder (trimmingAPI countId) noConfigRequest oneZoneState).trace.head? =
            some (Event.ListZones crn ((trimmingAPI countId).ListZones oneZoneState crn).1) ∧
          (CleanUp exampleDecoder (trimmingAPI countId) noConfigRequest oneZoneState).trace.head? =
            some (Event.ListZones crn ((trimmingAPI countId).ListZones oneZoneState crn).1)) :=
  ⟨rfl, fun _ _ => ⟨_, rfl⟩, fun _ _ _ => ⟨_, rfl⟩,
    config_is_not_validated exampleDecoder (trimmingAPI countId) noConfigRequest oneZoneState
      zeroConfig rfl (fun _ _ => ⟨_, rfl⟩) (fun _ _ _ => ⟨_, rfl⟩)⟩

/-- Counterexample to C6 as stated: when ListZones fails, Present does not return to its
caller, and neither does CleanUp: log.Fatal ends the process after that one call. -/
theorem failed_ListZones_aborts_the_process :
    (Present exampleDecoder failingAPI (exampleRequest "_acme-challenge.example.com.") ()).outcome =
        Outcome.aborted ∧
      (Present exampleDecoder failingAPI (exampleRequest "_acme-challenge.example.com.") ()).trace =
        [Event.ListZones (lit "crn:1") (Except.error "list zones failed")] ∧
      (CleanUp exampleDecoder failingAPI (exampleRequest "_acme-challenge.example.com.") ()).outcome =
        Outcome.aborted := by
  decide

/-- Counterexample to C7 as stated: the zone `example.com` is matched by the FQDN
`_acme-challenge.badexample.com.`, which neither equals `example.com.` nor ends with
`.example.com.`; Present creates the record in that zone. -/
theorem zone_match_ignores_label_boundaries :
    HasSuffix (lit "_acme-challenge.badexample.com.") (lit "example.com" ++ dot) = true ∧
      lit "_acme-challenge.badexample.com." ≠ lit "example.com" ++ dot ∧
      HasSuffix (lit "_acme-challenge.badexample.com.") (dot ++ lit "example.com" ++ dot) = false ∧
      createCalls (Present exampleDecoder (trimmingAPI countId)
          (exampleRequest "_acme-challenge.badexample.com.") oneZoneState).trace =
        [(lit "crn:1", lit "z1",
          { Name := lit "_acme-challenge.badexample.com.", DnsType := lit "TXT"
            Content := lit "token" })] := by
  decide

/-- Witness of C8 on the request whose config has an empty Raw. -/
theorem decode_failure_is_atomic_witness :
    emptyRawRequest.Config = some { Raw := [] } ∧
      (jsonUnmarshal exampleDecoder [] zeroConfig).2 ≠ none ∧
      (((∃ err, (Present exampleDecoder (trimmingAPI countId) emptyRawRequest recordsState).outcome =
            Outcome.returned (some err)) ∧
          (Present exampleDecoder (trimmingAPI countId) emptyRawRequest recordsState).trace = [] ∧
          (Present exampleDecoder (trimmingAPI countId) emptyRawRequest recordsState).state =
            recordsState) ∧
        ((∃ err, (CleanUp exampleDecoder (trimmingAPI countId) emptyRawRequest recordsState).outcome =
            Outcome.returned (some err)) ∧
          (CleanUp exampleDecoder (trimmingAPI countId) emptyRawRequest recordsState).trace = [] ∧
          (CleanUp exampleDecoder (trimmingAPI countId) emptyRawRequest recordsState).state =
            recordsState) ∧
        ∀ cfgJSON, (loadConfig exampleDecoder cfgJSON).2 ≠ none ↔
          ∃ j, cfgJSON = some j ∧ (jsonUnmarshal exampleDecoder j.Raw zeroConfig).2 ≠ none) :=
  ⟨rfl, by decide,
    decode_failure_is_atomic exampleDecoder (trimmingAPI countId) emptyRawRequest recordsState
      { Raw := [] } rfl (by decide)⟩

/-- Counterexample to C9 as stated: when the service stores the record under exactly the
name it was given (the FQDN, with its final dot), CleanUp compares that name plus a dot
with the FQDN, finds no challenge record and deletes nothing: the record that Present
created is still there after CleanUp. -/
theorem exact_names_are_never_cleaned_up :
    Event.CreateDns (lit "crn:1") (lit "z1")
        { Name := lit "_acme-challenge.example.com.", DnsType := lit "TXT", Content := lit "token" }
        (Except.ok { Id := lit "#", Name := lit "_acme-challenge.example.com."
                     DnsType := lit "TXT", Content := lit "token" }) ∈
        (Present exampleDecoder (exactAPI countId)
          (exampleRequest "_acme-challenge.example.com.") oneZoneState).trace ∧
      deleteCalls (CleanUp exampleDecoder (exactAPI countId)
        (exampleRequest "_acme-challenge.example.com.")
        (Present exampleDecoder (exactAPI countId)
          (exampleRequest "_acme-challenge.example.com.") oneZoneState).state).trace = [] ∧
      (lit "crn:1", lit "z1",
        ({ Id := lit "#", Name := lit "_acme-challenge.example.com.", DnsType := lit "TXT"
           Content := lit "token" } : DnsRecord)) ∈
        (CleanUp exampleDecoder (exactAPI countId)
          (exampleRequest "_acme-challenge.example.com.")
          (Present exampleDecoder (exactAPI countId)
            (exampleRequest "_acme-challenge.example.com.") oneZoneState).state).state.records := by
  decide

/-- Witness of C9 (amended): on `nestedZonesState` Present creates a record in both
zones of `crn:1`, and CleanUp leaves the state as it was before Present. -/
theorem Present_then_CleanUp_removes_the_created_records_witness :
    loadConfig exampleDecoder (exampleRequest "_acme-challenge.foo.example.com.").Config =
        (exampleConfig, none) ∧
      ((Present exampleDecoder (trimmingAPI countId)
          (exampleRequest "_acme-challenge.foo.example.com.") nestedZonesState).outcome =
          Outcome.returned none ∧
        (CleanUp exampleDecoder (trimmingAPI countId)
          (exampleRequest "_acme-challenge.foo.example.com.")
          (Present exampleDecoder (trimmingAPI countId)
            (exampleRequest "_acme-challenge.foo.example.com.") nestedZonesState).state).outcome =
          Outcome.returned none ∧
        (∀ crn zoneId body rec,
          Event.CreateDns crn zoneId body (Except.ok rec) ∈
              (Present exampleDecoder (trimmingAPI countId)
                (exampleRequest "_acme-challenge.foo.example.com.") nestedZonesState).trace →
            (crn, zoneId, rec) ∈ (Present exampleDecoder (trimmingAPI countId)
              (exampleRequest "_acme-challenge.foo.example.com.") nestedZonesState).state.records ∧
            (crn, zoneId, rec) ∉ (CleanUp exampleDecoder (trimmingAPI countId)
              (exampleRequest "_acme-challenge.foo.example.com.")
              (Present exampleDecoder (trimmingAPI countId)
                (exampleRequest "_acme-challenge.foo.example.com.")
                nestedZonesState).state).state.records) ∧
        (createCalls (Present exampleDecoder (trimmingAPI countId)
            (exampleRequest "_acme-challenge.foo.example.com.") nestedZonesState).trace ≠ [] ↔
          ∃ crn ∈ Split exampleConfig.CisCRN comma, ∃ z ∈ nestedZonesState.zonesOf crn,
            z.Name ++ dot <:+
              (exampleRequest "_acme-challenge.foo.example.com.").ResolvedFQDN)) ∧
      (Present exampleDecoder (trimmingAPI countId)
          (exampleRequest "_acme-challenge.foo.example.com.") nestedZonesState).state.records.length
        = 2 ∧
      (CleanUp exampleDecoder (trimmingAPI countId)
          (exampleRequest "_acme-challenge.foo.example.com.")
          (Present exampleDecoder (trimmingAPI countId)
            (exampleRequest "_acme-challenge.foo.example.com.") nestedZonesState).state).state =
        nestedZonesState :=
  ⟨by decide,
    Present_then_CleanUp_removes_the_created_records exampleDecoder countId
      (exampleRequest "_acme-challenge.foo.example.com.") nestedZonesState exampleConfig
      (by decide),
    by decide, by decide⟩

/-- Counterexample to C10 as stated: with the account `crn:1` named twice in CisCRN, on
two services whose ListZones and ListDns calls all succeed, CleanUp issues one DeleteDns
call for the challenge record `a` when DeleteDns succeeds and the same call twice when
DeleteDns fails and leaves the record; both runs return nil. -/
theorem failed_DeleteDns_is_issued_again :
    loadConfig repeatedDecoder repeatedRequest.Config = (repeatedConfig, none) ∧
      ListZonesSucceeds (trimmingAPI countId) ∧ ListDnsSucceeds (trimmingAPI countId) ∧
      ListZonesSucceeds flakyAPI ∧ ListDnsSucceeds flakyAPI ∧
      (CleanUp repeatedDecoder (trimmingAPI countId) repeatedRequest recordsState).outcome =
        Outcome.returned none ∧
      (CleanUp repeatedDecoder flakyAPI repeatedRequest recordsState).outcome =
        Outcome.returned none ∧
      deleteCalls (CleanUp repeatedDecoder (trimmingAPI countId) repeatedRequest
          recordsState).trace =
        [(lit "crn:1", lit "z1", lit "a")] ∧
      deleteCalls (CleanUp repeatedDecoder flakyAPI repeatedRequest recordsState).trace =
        [(lit "crn:1", lit "z1", lit "a"), (lit "crn:1", lit "z1", lit "a")] :=
  ⟨by decide, fun _ _ => ⟨_, rfl⟩, fun _ _ _ => ⟨_, rfl⟩, fun _ _ => ⟨_, rfl⟩,
    fun _ _ _ => ⟨_, rfl⟩, by decide, by decide, by decide, by decide⟩

/-- Witness of C10 (amended): the in-memory service, on which the record calls succeed,
against `flakyAPI`, on which every CreateDns and every DeleteDns fails and changes
nothing. With the accounts `crn:1` and `crn:2` each zone is listed once, the list answers
are the same, and so are the calls. -/
theorem record_failures_change_calls_only_through_listings_witness :
    loadConfig exampleDecoder (exampleRequest "_acme-challenge.example.com.").Config =
        (exampleConfig, none) ∧
      ZonesAgree (trimmingAPI countId) flakyAPI (fun s t => t.zones = s.zones) ∧
      CreatesKeep (trimmingAPI countId) flakyAPI (fun s t => t.zones = s.zones) ∧
      ListZonesSucceeds (trimmingAPI countId) ∧ ListDnsSucceeds (trimmingAPI countId) ∧
      listAnswers (CleanUp exampleDecoder flakyAPI
          (exampleRequest "_acme-challenge.example.com.") recordsState).trace =
        listAnswers (CleanUp exampleDecoder (trimmingAPI countId)
          (exampleRequest "_acme-challenge.example.com.") recordsState).trace ∧
      ((Present exampleDecoder (trimmingAPI countId)
          (exampleRequest "_acme-challenge.example.com.") recordsState).outcome =
          Outcome.returned none ∧
        (Present exampleDecoder flakyAPI
          (exampleRequest "_acme-challenge.example.com.") recordsState).outcome =
          Outcome.returned none ∧
        createCalls (Present exampleDecoder (trimmingAPI countId)
          (exampleRequest "_acme-challenge.example.com.") recordsState).trace =
          createCalls (Present exampleDecoder flakyAPI
            (exampleRequest "_acme-challenge.example.com.") recordsState).trace ∧
        (CleanUp exampleDecoder (trimmingAPI countId)
          (exampleRequest "_acme-challenge.example.com.") recordsState).outcome =
          Outcome.returned none ∧
        (CleanUp exampleDecoder flakyAPI
          (exampleRequest "_acme-challenge.example.com.") recordsState).outcome =
          Outcome.returned none ∧
        deleteCalls (CleanUp exampleDecoder (trimmingAPI countId)
          (exampleRequest "_acme-challenge.example.com.") recordsState).trace =
          deletesAfterLists (exampleRequest "_acme-challenge.example.com.")
            (listAnswers (CleanUp exampleDecoder (trimmingAPI countId)
              (exampleRequest "_acme-challenge.example.com.") recordsState).trace) ∧
        deleteCalls (CleanUp exampleDecoder flakyAPI
          (exampleRequest "_acme-challenge.example.com.") recordsState).trace =
          deleteCalls (CleanUp exampleDecoder (trimmingAPI countId)
            (exampleRequest "_acme-challenge.example.com.") recordsState).trace) ∧
      (createCalls (Present exampleDecoder flakyAPI
          (exampleRequest "_acme-challenge.example.com.") recordsState).trace).length = 2 ∧
      (CleanUp exampleDecoder flakyAPI
          (exampleRequest "_acme-challenge.example.com.") recordsState).state = recordsState ∧
      deleteCalls (CleanUp exampleDecoder flakyAPI
          (exampleRequest "_acme-challenge.example.com.") recordsState).trace =
        [(lit "crn:1", lit "z1", lit "a"), (lit "crn:2", lit "z4", lit "e")] :=
  have hRZ : ZonesAgree (trimmingAPI countId) flakyAPI (fun s t => t.zones = s.zones) :=
    fun s _ crn h => ⟨s.zonesOf crn, rfl, congrArg Except.ok (zonesOf_of_zones_eq h crn), h⟩
  have hRC : CreatesKeep (trimmingAPI countId) flakyAPI (fun s t => t.zones = s.zones) :=
    fun _ _ _ _ _ h => h
  ⟨by decide, hRZ, hRC, fun _ _ => ⟨_, rfl⟩, fun _ _ _ => ⟨_, rfl⟩, by decide,
    record_failures_change_calls_only_through_listings exampleDecoder (trimmingAPI countId)
      flakyAPI (fun s t => t.zones = s.zones)
      (exampleRequest "_acme-challenge.example.com.") exampleConfig recordsState recordsState
      (by decide) hRZ hRC rfl (fun _ _ => ⟨_, rfl⟩) (fun _ _ _ => ⟨_, rfl⟩) (by decide),
    by decide, by decide, by decide⟩

end Softlayer
